import Mathlib

/-!
Shallow embedding of the userdata-timeline backup engine
(`src/extension.ts` and the unnamed extension variant), together with
proofs about its behaviour.

Filenames and file contents are modelled as `String`; filesystem state is an
explicit record (`FsState`); each asynchronous operation is a pure function of
the state together with the outcomes of its platform calls.  Platform services
(`fs`, `Date`, `parseInt`, `JSON.parse`) are modelled once, in the `Js`
namespace; the two copies of the service code (extension.ts, and the unnamed
variant) are transcribed separately in namespaces `Ext` and `Variant`.
-/

namespace Js

/-- Model of one reading of the local wall clock, with the fields the
JavaScript `Date` accessors expose (`getFullYear`, `getMonth` (0-based),
`getDate`, `getHours`, `getMinutes`, `getSeconds`, `getMilliseconds`). -/
structure Clock where
  year : Nat
  monthIdx : Nat
  day : Nat
  hour : Nat
  minute : Nat
  second : Nat
  ms : Nat
deriving Repr, DecidableEq

/-- A wall-clock reading whose fields are in the ranges the platform `Date`
accessors guarantee, with a four-digit year. -/
def Clock.Valid (t : Clock) : Prop :=
  1000 ≤ t.year ∧ t.year ≤ 9999 ∧ t.monthIdx ≤ 11 ∧
  1 ≤ t.day ∧ t.day ≤ 31 ∧ t.hour ≤ 23 ∧ t.minute ≤ 59 ∧ t.second ≤ 59 ∧
  t.ms ≤ 999

instance (t : Clock) : Decidable t.Valid := by unfold Clock.Valid; infer_instance

/-- JavaScript `parseInt(s)` restricted to its use in this code base: the
value of the longest leading run of decimal digits, `none` for `NaN` (no
leading digit).  (Leading whitespace, signs and radix prefixes never occur at
the call sites, so they are not modelled.) -/
def parseIntStr (s : String) : Option Nat :=
  let ds := s.toList.takeWhile Char.isDigit
  if ds.isEmpty then none
  else some (ds.foldl (fun a c => a * 10 + (c.toNat - 48)) 0)

/-- JavaScript `s.substring(i, j)` for `i ≤ j` (the only way it is called). -/
def substr (s : String) (i j : Nat) : String :=
  ((s.toList.drop i).take (j - i)).asString

/-- The leap-year predicate used by the ECMAScript `Date` specification. -/
def leapYear (y : Int) : Bool :=
  (y % 4 == 0 && y % 100 != 0) || y % 400 == 0

/-- Days from 0000-01-01 to the 1st of January of year `y`, proleptic
Gregorian (the calendar ECMAScript `Date` uses). -/
def daysFromYear0 (y : Int) : Int :=
  365 * y + (y + 3).fdiv 4 - (y + 99).fdiv 100 + (y + 399).fdiv 400

/-- Cumulative day counts before each month in a non-leap year. -/
def monthOffsets : List Int :=
  [0, 31, 59, 90, 120, 151, 181, 212, 243, 273, 304, 334]

/-- ECMAScript `MakeDay(y, m, d)` (with `m` a possibly out-of-range month
index, normalised by floor division, and `d` a possibly out-of-range
day-of-month), as a day number relative to the epoch 1970-01-01. -/
def makeDay (y m d : Int) : Int :=
  let ym := y + m.fdiv 12
  let mn := m.fmod 12
  daysFromYear0 ym - 719528 + monthOffsets.getD mn.toNat 0 +
    (if 2 ≤ mn then (if leapYear ym then 1 else 0) else 0) + (d - 1)

/-- ECMAScript `MakeTime(h, m, s, 0)` in milliseconds. -/
def makeTime (h mi s : Int) : Int :=
  h * 3600000 + mi * 60000 + s * 1000

/-- `new Date(y, m, d, h, mi, s).getTime()`: the time value of a local
calendar decomposition.  Includes the constructor's two-digit-year rule
(`0 ≤ y ≤ 99` is read as `1900 + y`).  The local time zone is modelled with
offset zero; the offset is an additive constant, so it does not affect any
comparison or decomposition fact proved below. -/
def dateMillis (y m d h mi s : Int) : Int :=
  let yr := if 0 ≤ y ∧ y ≤ 99 then 1900 + y else y
  makeDay yr m d * 86400000 + makeTime h mi s

/-- `pad(n, l)` from the source: the decimal representation of `n`,
left-padded with `'0'` to length `l`. -/
def pad (n l : Nat) : String :=
  String.mk (List.replicate (l - (toString n).length) '0') ++ toString n

/-- `(ms / 1000).toFixed(3).slice(2, 5)` for `0 ≤ ms ≤ 999`: the three
fractional digits of the millisecond field. -/
def msFrac (ms : Nat) : String := pad ms 3

/-- Helper for `stripMsTail`: given the digit run preceding the final `Z`
(reversed) and what comes before it (reversed), strip the matched tail if the
digit run is nonempty and a `.` precedes it; otherwise keep the original. -/
def stripParts (ds tail orig : List Char) : List Char :=
  match ds, tail with
  | _ :: _, dot :: rest2 => if dot == '.' then rest2.reverse else orig
  | _, _ => orig

/-- Drop a trailing `.<digits>Z` (the `\.\d+Z$` alternative of the
name-cleaning regex). -/
def stripMsTail (l : List Char) : List Char :=
  match l.reverse with
  | 'Z' :: rest =>
    stripParts (rest.takeWhile Char.isDigit) (rest.dropWhile Char.isDigit) l
  | _ => l

/-- `s.replace` with the global regex whose alternatives are `-`, `:` and
`\.\d+Z$`, and the empty replacement: every `-` and `:` is removed, and a
final `.<digits>Z` run is removed. -/
def cleanName (s : String) : String :=
  String.mk ((stripMsTail s.toList).filter (fun c => !(c == '-' || c == ':')))

/-- Filesystem state underneath one backup root: the set of resource
subfolders that exist, and an association list from `(resource, name)` to
file content. -/
structure FsState where
  dirs : List String
  files : List ((String × String) × String)
deriving Repr, DecidableEq

/-- `readdir` on a resource subfolder: fails if the subfolder does not
exist, otherwise lists the names of the files in it. -/
def readdirFs (fs : FsState) (res : String) : Except String (List String) :=
  if res ∈ fs.dirs then
    .ok ((fs.files.filter (fun f => f.1.1 == res)).map (fun f => f.1.2))
  else .error "ENOENT"

/-- `readFile` on a snapshot file: fails if no such file exists. -/
def readFileFs (fs : FsState) (res name : String) : Except String String :=
  match fs.files.find? (fun f => f.1 == (res, name)) with
  | some f => .ok f.2
  | none => .error "ENOENT"

/-- `writeFile`: overwrite the file if present, create it otherwise. -/
def setFile (files : List ((String × String) × String)) (k : String × String)
    (c : String) : List ((String × String) × String) :=
  if files.any (fun f => f.1 == k) then
    files.map (fun f => if f.1 == k then (k, c) else f)
  else files ++ [(k, c)]

/-- Code-unit-wise strict comparison of strings as character lists — the
comparison the default JavaScript `Array.prototype.sort` performs (all
accepted snapshot names are ASCII, where code units and code points
agree). -/
def charListLt : List Char → List Char → Bool
  | [], [] => false
  | [], _ :: _ => true
  | _ :: _, [] => false
  | a :: as, b :: bs => a < b || (a == b && charListLt as bs)

/-- The string ordering of the default JavaScript sort, as a total
comparator: `a` sorts no later than `b` iff `b` is not strictly smaller. -/
def strLe (a b : String) : Bool := !(charListLt b.toList a.toList)

/-- JSON values, as produced by `JSON.parse` (numbers kept as raw lexemes;
no snapshot content examined by this code base is numeric). -/
inductive Json where
  | null
  | bool (b : Bool)
  | num (raw : String)
  | str (s : String)
  | arr (elems : List Json)
  | obj (fields : List (String × Json))
deriving Repr

/-- JSON insignificant whitespace. -/
def jsonWs (c : Char) : Bool := c == ' ' || c == '\t' || c == '\n' || c == '\r'

def lbrace : Char := Char.ofNat 123

def rbrace : Char := Char.ofNat 125

def hexVal (c : Char) : Option Nat :=
  if c.isDigit then some (c.toNat - 48)
  else if 'a' ≤ c && c ≤ 'f' then some (c.toNat - 87)
  else if 'A' ≤ c && c ≤ 'F' then some (c.toNat - 55)
  else none

/-- Body of a JSON string after the opening quote: decode escapes, stop at
the closing quote.  (Surrogate-pair recombination is not modelled; no input
in this development uses astral characters.) -/
def strBody : Nat → List Char → List Char → Except String (List Char × List Char)
  | 0, _, _ => .error "string too long"
  | _ + 1, _, [] => .error "unterminated string"
  | fuel + 1, acc, c :: rest =>
    if c == '"' then .ok (acc.reverse, rest)
    else if c == '\\' then
      match rest with
      | [] => .error "unterminated escape"
      | e :: rest2 =>
        if e == '"' || e == '\\' || e == '/' then strBody fuel (e :: acc) rest2
        else if e == 'b' then strBody fuel (Char.ofNat 8 :: acc) rest2
        else if e == 'f' then strBody fuel (Char.ofNat 12 :: acc) rest2
        else if e == 'n' then strBody fuel ('\n' :: acc) rest2
        else if e == 'r' then strBody fuel ('\r' :: acc) rest2
        else if e == 't' then strBody fuel ('\t' :: acc) rest2
        else if e == 'u' then
          match rest2 with
          | h1 :: h2 :: h3 :: h4 :: rest3 =>
            match hexVal h1, hexVal h2, hexVal h3, hexVal h4 with
            | some v1, some v2, some v3, some v4 =>
              strBody fuel (Char.ofNat (((v1 * 16 + v2) * 16 + v3) * 16 + v4) :: acc) rest3
            | _, _, _, _ => .error "bad unicode escape"
          | _ => .error "bad unicode escape"
        else .error "bad escape"
    else if c.toNat < 32 then .error "control character in string"
    else strBody fuel (c :: acc) rest

/-- A JSON number lexeme: optional minus, integer part without excess
leading zeros, optional fraction, optional exponent. -/
def numberLexeme (l : List Char) : Except String (List Char × List Char) :=
  let (neg, l1) := match l with
    | '-' :: r => (['-'], r)
    | _ => (([] : List Char), l)
  let ints := l1.takeWhile Char.isDigit
  let l2 := l1.dropWhile Char.isDigit
  if ints.isEmpty then .error "bad number"
  else if 2 ≤ ints.length && ints.headD '0' == '0' then .error "bad number"
  else
    let (frac, l3) :=
      match l2 with
      | '.' :: r =>
        let ds := r.takeWhile Char.isDigit
        if ds.isEmpty then (([] : List Char), l2) else ('.' :: ds, r.dropWhile Char.isDigit)
      | _ => (([] : List Char), l2)
    if l2 ≠ l3 ∨ l2.headD ' ' ≠ '.' then
      match l3 with
      | e :: r =>
        if e == 'e' || e == 'E' then
          let (sgn, r2) := match r with
            | '+' :: r2 => (['+'], r2)
            | '-' :: r2 => (['-'], r2)
            | _ => (([] : List Char), r)
          let ds := r2.takeWhile Char.isDigit
          if ds.isEmpty then .error "bad number"
          else .ok (neg ++ ints ++ frac ++ e :: sgn ++ ds, r2.dropWhile Char.isDigit)
        else .ok (neg ++ ints ++ frac, l3)
      | [] => .ok (neg ++ ints ++ frac, l3)
    else .error "bad number"

mutual

/-- One JSON value, recursive descent with fuel. -/
def parseValue : Nat → List Char → Except String (Json × List Char)
  | 0, _ => .error "input too nested"
  | fuel + 1, l =>
    match l.dropWhile jsonWs with
    | [] => .error "unexpected end of JSON input"
    | 'n' :: 'u' :: 'l' :: 'l' :: rest => .ok (.null, rest)
    | 't' :: 'r' :: 'u' :: 'e' :: rest => .ok (.bool true, rest)
    | 'f' :: 'a' :: 'l' :: 's' :: 'e' :: rest => .ok (.bool false, rest)
    | '"' :: rest =>
      match strBody (rest.length + 1) [] rest with
      | .ok (cs, r) => .ok (.str cs.asString, r)
      | .error e => .error e
    | c :: rest =>
      if c == lbrace then
        match rest.dropWhile jsonWs with
        | d :: rest2 =>
          if d == rbrace then .ok (.obj [], rest2)
          else parseMembers fuel (d :: rest2) []
        | [] => .error "unterminated object"
      else if c == '[' then
        match rest.dropWhile jsonWs with
        | d :: rest2 =>
          if d == ']' then .ok (.arr [], rest2)
          else parseElems fuel (d :: rest2) []
        | [] => .error "unterminated array"
      else if c == '-' || c.isDigit then
        match numberLexeme (c :: rest) with
        | .ok (cs, r) => .ok (.num cs.asString, r)
        | .error e => .error e
      else .error "unexpected character in JSON"

/-- Object members from the first key onwards. -/
def parseMembers : Nat → List Char → List (String × Json) →
    Except String (Json × List Char)
  | 0, _, _ => .error "input too nested"
  | fuel + 1, l, acc =>
    match l.dropWhile jsonWs with
    | '"' :: rest =>
      match strBody (rest.length + 1) [] rest with
      | .error e => .error e
      | .ok (key, r1) =>
        match r1.dropWhile jsonWs with
        | ':' :: r2 =>
          match parseValue fuel r2 with
          | .error e => .error e
          | .ok (v, r3) =>
            match r3.dropWhile jsonWs with
            | ',' :: r4 => parseMembers fuel r4 ((key.asString, v) :: acc)
            | d :: r4 =>
              if d == rbrace then .ok (.obj ((key.asString, v) :: acc).reverse, r4)
              else .error "expected comma or closing brace"
            | [] => .error "unterminated object"
        | _ => .error "expected colon"
    | _ => .error "expected object key"

/-- Array elements from the first element onwards. -/
def parseElems : Nat → List Char → List Json → Except String (Json × List Char)
  | 0, _, _ => .error "input too nested"
  | fuel + 1, l, acc =>
    match parseValue fuel l with
    | .error e => .error e
    | .ok (v, r1) =>
      match r1.dropWhile jsonWs with
      | ',' :: r2 => parseElems fuel r2 (v :: acc)
      | ']' :: r2 => .ok (.arr (v :: acc).reverse, r2)
      | _ => .error "expected comma or closing bracket"

end

/-- `JSON.parse`. -/
def jsonParse (s : String) : Except String Json :=
  match parseValue (2 * s.length + 8) s.toList with
  | .ok (v, rest) =>
    if (rest.dropWhile jsonWs).isEmpty then .ok v
    else .error "unexpected trailing characters"
  | .error e => .error e

/-- Property access `v[key]` as used by destructuring: `none` models
`undefined` (missing field or non-object); JS duplicate keys resolve to the
last occurrence. -/
def getField (v : Json) (key : String) : Option Json :=
  match v with
  | .obj fields => (fields.reverse.find? (fun f => f.1 == key)).map (fun f => f.2)
  | _ => none

end Js

namespace Ext

open Js

/-- `toLocalISOString(date)` from `src/extension.ts`. -/
def toLocalISOString (t : Clock) : String :=
  toString t.year ++ "-" ++ pad (t.monthIdx + 1) 2 ++ "-" ++ pad t.day 2 ++
    "T" ++ pad t.hour 2 ++ ":" ++ pad t.minute 2 ++ ":" ++ pad t.second 2 ++
    "." ++ msFrac t.ms ++ "Z"

/-- The filename `backup` writes for clock reading `t`:
`toLocalISOString(new Date())` with separators and millisecond tail removed
by `cleanName`, then `".json"` appended. -/
def backupFileName (t : Clock) : String :=
  cleanName (toLocalISOString t) ++ ".json"

/-- The test `/^\d{8}T\d{6}(\.json)?$/.test(name)` from `getAllEntries`:
eight digits, `T`, six digits, optionally followed by `.json`. -/
def isSnapshotName (s : String) : Bool :=
  match s.toList with
  | a :: b :: c :: d :: e :: f :: g :: h :: t :: i :: j :: k :: l :: m :: n :: rest =>
    [a, b, c, d, e, f, g, h].all Char.isDigit && t == 'T' &&
      [i, j, k, l, m, n].all Char.isDigit &&
      (rest == [] || rest == ['.', 'j', 's', 'o', 'n'])
  | _ => false

/-- `getCreationTime(name)` from `src/extension.ts`: parse the digit fields
of the name and build a `Date` from them (year `0..3`, month `4..5` minus
one, day `6..7`, hour `9..10`, minute `11..12`, second `13..14`).  `none`
models the `NaN` result when a `parseInt` call fails. -/
def getCreationTime (name : String) : Option Int := do
  let y ← parseIntStr (substr name 0 4)
  let mo ← parseIntStr (substr name 4 6)
  let d ← parseIntStr (substr name 6 8)
  let h ← parseIntStr (substr name 9 11)
  let mi ← parseIntStr (substr name 11 13)
  let s ← parseIntStr (substr name 13 15)
  pure (dateMillis (y : Int) ((mo : Int) - 1) (d : Int) (h : Int) (mi : Int) (s : Int))

/-- `IUserDataBackupEntry` from `src/extension.ts`. -/
structure Entry where
  resource : String
  name : String
  created : Option Int
deriving Repr, DecidableEq

/-- The body of `getAllEntries` applied to the outcome of the `readdir`
call: filter the children by the accepted name patterns, sort
lexicographically (the default JavaScript array sort), reverse, and build
entries.  A failed `readdir` is caught and becomes `[]`. -/
def getAllEntriesFrom (resource : String) (listing : Except String (List String)) :
    List Entry :=
  match listing with
  | .error _ => []
  | .ok children =>
    let all := ((children.filter isSnapshotName).mergeSort
      (fun a b => strLe a b)).reverse
    all.map (fun name => ⟨resource, name, getCreationTime name⟩)

/-- The body of `resolveContent` applied to the outcome of the `readFile`
call: a failed read is caught and becomes the empty string. -/
def resolveContentFrom (r : Except String String) : String :=
  match r with
  | .ok c => c
  | .error _ => ""

/-- `getAllEntries(resource)` as a function of the filesystem state. -/
def getAllEntries (fs : FsState) (res : String) : List Entry :=
  getAllEntriesFrom res (readdirFs fs res)

/-- `resolveContent(resource, name)` as a function of the filesystem state. -/
def resolveContent (fs : FsState) (res name : String) : String :=
  resolveContentFrom (readFileFs fs res name)

/-- `backup(resource)`: ensure the resource subfolder exists (`fs.exists`
check followed by recursive `mkdir`), read the live configuration file
(outcome injected as `liveRead`; a failure propagates), write its bytes to a
new file named from the current clock, and fire the change event once.
Returns the new filesystem state together with either the list of fired
events or the propagated error. -/
def backup (fs : FsState) (res : String) (now : Clock)
    (liveRead : Except String String) : FsState × Except String (List String) :=
  let fs1 : FsState :=
    { fs with dirs := if res ∈ fs.dirs then fs.dirs else fs.dirs ++ [res] }
  match liveRead with
  | .error e => (fs1, .error e)
  | .ok content =>
    ({ fs1 with files := setFile fs1.files (res, backupFileName now) content },
      .ok [res])

/-- `getAllEntries` as a state-passing operation (it performs no writes, so
the state component it returns is the state it was given). -/
def getAllEntriesOp (fs : FsState) (res : String) : List Entry × FsState :=
  (getAllEntriesFrom res (readdirFs fs res), fs)

end Ext

/-! ## Decimal representations

`toString` on `Nat` is `Nat.repr`; the following gives it a structural
characterisation used to reason about the fixed-width fields of snapshot
names. -/

namespace Js

/-- The decimal digit characters of `n`, most significant first. -/
def decDigits (n : Nat) : List Char :=
  if _ : n < 10 then [Nat.digitChar n]
  else decDigits (n / 10) ++ [Nat.digitChar (n % 10)]
decreasing_by
  exact Nat.div_lt_self (by omega) (by omega)

theorem toDigitsCore_eq (f : Nat) : ∀ (n : Nat) (l : List Char), n < f →
    Nat.toDigitsCore 10 f n l = decDigits n ++ l := by
  induction f with
  | zero => intro n l h; omega
  | succ f ih =>
    intro n l h
    rw [Nat.toDigitsCore]
    by_cases h10 : n / 10 = 0
    · have hn : n < 10 := by omega
      rw [if_pos h10, decDigits, dif_pos hn, Nat.mod_eq_of_lt hn]
      simp
    · have hn : ¬ n < 10 := by omega
      rw [if_neg h10, ih (n / 10) _ (by omega)]
      conv_rhs => rw [decDigits]
      rw [dif_neg hn]
      simp

theorem repr_eq_decDigits (n : Nat) : (toString n).toList = decDigits n := by
  show (Nat.repr n).toList = decDigits n
  rw [Nat.repr, Nat.toDigits, toDigitsCore_eq (n + 1) n [] (Nat.lt_succ_self n),
    List.toList_asString, List.append_nil]

/-- Canonical two-digit zero-padded representation. -/
def pad2c (n : Nat) : List Char := [Nat.digitChar (n / 10), Nat.digitChar (n % 10)]

/-- Canonical four-digit zero-padded representation. -/
def pad4c (n : Nat) : List Char := pad2c (n / 100) ++ pad2c (n % 100)

theorem decDigits_one_digit {n : Nat} (h : n < 10) :
    decDigits n = [Nat.digitChar n] := by
  rw [decDigits, dif_pos h]

theorem decDigits_two_digits {n : Nat} (h1 : 10 ≤ n) (h2 : n < 100) :
    decDigits n = pad2c n := by
  rw [decDigits, dif_neg (by omega), decDigits_one_digit (by omega)]
  rfl

theorem decDigits_four_digits {n : Nat} (h1 : 1000 ≤ n) (h2 : n < 10000) :
    decDigits n = pad4c n := by
  rw [decDigits, dif_neg (by omega), decDigits, dif_neg (by omega),
    decDigits_two_digits (n := n / 10 / 10) (by omega) (by omega)]
  have e1 : n / 10 / 10 = n / 100 := by omega
  have e2 : n / 100 / 10 = n / 1000 := by omega
  have e3 : n / 100 % 10 = n / 100 % 10 := rfl
  rw [e1]
  show pad2c (n / 100) ++ [Nat.digitChar (n / 10 % 10), Nat.digitChar (n % 10)]
    = pad2c (n / 100) ++ pad2c (n % 100)
  have e4 : n % 100 / 10 = n / 10 % 10 := by omega
  have e5 : n % 100 % 10 = n % 10 := by omega
  simp only [pad2c, e4, e5]

theorem pad_two_toList {n : Nat} (h : n < 100) : (pad n 2).toList = pad2c n := by
  by_cases h10 : n < 10
  · have hr : (toString n).toList = [Nat.digitChar n] := by
      rw [repr_eq_decDigits, decDigits_one_digit h10]
    have hlen : (toString n).length = 1 := by
      have h2 : (toString n).toList.length = 1 := by rw [hr]; rfl
      exact h2
    simp only [pad, hlen]
    have he : (String.mk (List.replicate (2 - 1) '0') ++ toString n).toList
        = List.replicate 1 '0' ++ (toString n).toList := rfl
    rw [he, hr]
    have h0 : n / 10 = 0 := by omega
    simp [pad2c, h0, Nat.mod_eq_of_lt h10, Nat.digitChar]
  · have hr : (toString n).toList = pad2c n := by
      rw [repr_eq_decDigits, decDigits_two_digits (by omega) h]
    have hlen : (toString n).length = 2 := by
      have h2 : (toString n).toList.length = 2 := by rw [hr]; rfl
      exact h2
    simp only [pad, hlen]
    have he : (String.mk (List.replicate (2 - 2) '0') ++ toString n).toList
        = (toString n).toList := rfl
    rw [he, hr]

theorem toString_four_toList {n : Nat} (h1 : 1000 ≤ n) (h2 : n < 10000) :
    (toString n).toList = pad4c n := by
  rw [repr_eq_decDigits, decDigits_four_digits h1 h2]

theorem digitChar_isDigit {v : Nat} (h : v < 10) :
    (Nat.digitChar v).isDigit = true := by
  revert h
  exact (by decide : ∀ v, v < 10 → (Nat.digitChar v).isDigit = true) v

theorem decDigits_ne_nil (n : Nat) : decDigits n ≠ [] := by
  rw [decDigits]
  split <;> simp

theorem decDigits_all_digit (n : Nat) : ∀ c ∈ decDigits n, c.isDigit = true := by
  induction n using Nat.strong_induction_on with
  | _ n ih =>
    rw [decDigits]
    split
    · intro c hc
      simp only [List.mem_singleton] at hc
      subst hc
      exact digitChar_isDigit (by omega)
    · intro c hc
      rw [List.mem_append] at hc
      rcases hc with hc | hc
      · exact ih (n / 10) (Nat.div_lt_self (by omega) (by omega)) c hc
      · simp only [List.mem_singleton] at hc
        subst hc
        exact digitChar_isDigit (Nat.mod_lt n (by omega))

theorem pad_toList (n l : Nat) :
    (pad n l).toList = List.replicate (l - (decDigits n).length) '0' ++ decDigits n := by
  have hlen : (toString n).length = (decDigits n).length := by
    have h2 : (toString n).toList.length = (decDigits n).length := by
      rw [repr_eq_decDigits]
    exact h2
  simp only [pad, hlen]
  have he : (String.mk (List.replicate (l - (decDigits n).length) '0') ++ toString n).toList
      = List.replicate (l - (decDigits n).length) '0' ++ (toString n).toList := rfl
  rw [he, repr_eq_decDigits]

theorem pad_all_digit (n l : Nat) : ∀ c ∈ (pad n l).toList, c.isDigit = true := by
  rw [pad_toList]
  intro c hc
  rw [List.mem_append] at hc
  rcases hc with hc | hc
  · rw [List.eq_of_mem_replicate hc]; decide
  · exact decDigits_all_digit n c hc

theorem pad_toList_ne_nil (n l : Nat) : (pad n l).toList ≠ [] := by
  rw [pad_toList]
  intro h
  exact decDigits_ne_nil n (List.append_eq_nil.mp h).2

/-! ## Lexicographic comparison of fixed-width digit strings -/

theorem lex_cons_iff {α : Type} {r : α → α → Prop} {x y : α} {xs ys : List α} :
    List.Lex r (x :: xs) (y :: ys) ↔ r x y ∨ (x = y ∧ List.Lex r xs ys) := by
  constructor
  · intro h
    cases h with
    | cons h => exact Or.inr ⟨rfl, h⟩
    | rel h => exact Or.inl h
  · intro h
    rcases h with h | ⟨rfl, h⟩
    · exact List.Lex.rel h
    · exact List.Lex.cons h

theorem charListLt_iff : ∀ (l1 l2 : List Char),
    charListLt l1 l2 = true ↔ List.Lex (· < ·) l1 l2 := by
  intro l1
  induction l1 with
  | nil =>
    intro l2
    cases l2 with
    | nil => simp [charListLt]
    | cons b bs => simp [charListLt]; exact List.Lex.nil
  | cons a as ih =>
    intro l2
    cases l2 with
    | nil => simp [charListLt]
    | cons b bs =>
      rw [charListLt, lex_cons_iff]
      simp only [Bool.or_eq_true, Bool.and_eq_true, decide_eq_true_eq, beq_iff_eq]
      rw [ih bs]

theorem strLe_iff (a b : String) : strLe a b = true ↔ a ≤ b := by
  rw [strLe, Bool.not_eq_true']
  constructor
  · intro h
    rw [String.le_iff_toList_le]
    rw [← not_lt]
    intro hlt
    have hc : charListLt b.toList a.toList = true := by
      rw [charListLt_iff]
      exact hlt
    rw [hc] at h
    simp at h
  · intro h
    by_contra hne
    have h2 : charListLt b.toList a.toList = true := by
      cases hc : charListLt b.toList a.toList
      · exact absurd hc hne
      · rfl
    rw [charListLt_iff] at h2
    rw [String.le_iff_toList_le, ← not_lt] at h
    exact h h2

theorem lex_append_block {α : Type} [LT α] :
    ∀ {A B : List α} (u v : List α), A.length = B.length →
      (List.Lex (· < ·) (A ++ u) (B ++ v)
        ↔ List.Lex (· < ·) A B ∨ (A = B ∧ List.Lex (· < ·) u v)) := by
  intro A
  induction A with
  | nil =>
    intro B u v h
    have : B = [] := by
      cases B with
      | nil => rfl
      | cons b bs => simp at h
    subst this
    simp
  | cons a as ih =>
    intro B u v h
    cases B with
    | nil => simp at h
    | cons b bs =>
      simp only [List.length_cons, Nat.succ.injEq] at h
      simp only [List.cons_append]
      rw [lex_cons_iff, lex_cons_iff, ih u v h]
      constructor
      · rintro (hab | ⟨rfl, hlex | ⟨rfl, huv⟩⟩)
        · exact Or.inl (Or.inl hab)
        · exact Or.inl (Or.inr ⟨rfl, hlex⟩)
        · exact Or.inr ⟨rfl, huv⟩
      · rintro ((hab | ⟨rfl, hlex⟩) | ⟨heq, huv⟩)
        · exact Or.inl hab
        · exact Or.inr ⟨rfl, Or.inl hlex⟩
        · rw [List.cons.injEq] at heq
          exact Or.inr ⟨heq.1, Or.inr ⟨heq.2, huv⟩⟩

theorem append_block_eq_iff {α : Type} {A B u v : List α} (h : A.length = B.length) :
    A ++ u = B ++ v ↔ A = B ∧ u = v :=
  ⟨fun e => List.append_inj e h, fun e => by rw [e.1, e.2]⟩

theorem digitChar_lt_iff : ∀ a, a < 10 → ∀ b, b < 10 →
    (Nat.digitChar a < Nat.digitChar b ↔ a < b) := by decide

theorem digitChar_eq_iff : ∀ a, a < 10 → ∀ b, b < 10 →
    (Nat.digitChar a = Nat.digitChar b ↔ a = b) := by decide

theorem digitChar_ofNat : ∀ v, v < 10 → Nat.digitChar v = Char.ofNat (48 + v) := by
  decide

theorem pad2c_lt_iff {a b : Nat} (ha : a < 100) (hb : b < 100) :
    (List.Lex (· < ·) (pad2c a) (pad2c b)) ↔ a < b := by
  unfold pad2c
  rw [lex_cons_iff, List.Lex.singleton_iff,
    digitChar_lt_iff _ (by omega) _ (by omega),
    digitChar_eq_iff _ (by omega) _ (by omega),
    digitChar_lt_iff _ (by omega) _ (by omega)]
  omega

theorem pad2c_eq_iff {a b : Nat} (ha : a < 100) (hb : b < 100) :
    pad2c a = pad2c b ↔ a = b := by
  unfold pad2c
  rw [List.cons.injEq, List.cons.injEq,
    digitChar_eq_iff _ (by omega) _ (by omega),
    digitChar_eq_iff _ (by omega) _ (by omega)]
  simp only [and_true]
  omega

theorem pad4c_lt_iff {a b : Nat} (ha : a < 10000) (hb : b < 10000) :
    (List.Lex (· < ·) (pad4c a) (pad4c b)) ↔ a < b := by
  unfold pad4c
  rw [lex_append_block _ _ (by rfl),
    pad2c_lt_iff (by omega) (by omega), pad2c_eq_iff (by omega) (by omega),
    pad2c_lt_iff (by omega) (by omega)]
  omega

theorem pad4c_eq_iff {a b : Nat} (ha : a < 10000) (hb : b < 10000) :
    pad4c a = pad4c b ↔ a = b := by
  unfold pad4c
  rw [append_block_eq_iff (by rfl),
    pad2c_eq_iff (by omega) (by omega), pad2c_eq_iff (by omega) (by omega)]
  omega

/-- The 15-character body `YYYYMMDDTHHMMSS` of a snapshot name, from its six
numeric fields. -/
def nameBody (y mo d h mi s : Nat) : List Char :=
  pad4c y ++ (pad2c mo ++ (pad2c d ++ ('T' :: (pad2c h ++ (pad2c mi ++ pad2c s)))))

/-- Lexicographic order on the six field values. -/
def fieldsLt (y1 mo1 d1 h1 mi1 s1 y2 mo2 d2 h2 mi2 s2 : Nat) : Prop :=
  y1 < y2 ∨ (y1 = y2 ∧ (mo1 < mo2 ∨ (mo1 = mo2 ∧ (d1 < d2 ∨ (d1 = d2 ∧
    (h1 < h2 ∨ (h1 = h2 ∧ (mi1 < mi2 ∨ (mi1 = mi2 ∧ s1 < s2)))))))))

theorem nameBody_lt_iff {y1 mo1 d1 h1 mi1 s1 y2 mo2 d2 h2 mi2 s2 : Nat}
    (hy1 : y1 < 10000) (hmo1 : mo1 < 100) (hd1 : d1 < 100) (hh1 : h1 < 100)
    (hmi1 : mi1 < 100) (hs1 : s1 < 100)
    (hy2 : y2 < 10000) (hmo2 : mo2 < 100) (hd2 : d2 < 100) (hh2 : h2 < 100)
    (hmi2 : mi2 < 100) (hs2 : s2 < 100) :
    List.Lex (· < ·) (nameBody y1 mo1 d1 h1 mi1 s1) (nameBody y2 mo2 d2 h2 mi2 s2)
      ↔ fieldsLt y1 mo1 d1 h1 mi1 s1 y2 mo2 d2 h2 mi2 s2 := by
  unfold nameBody fieldsLt
  rw [lex_append_block _ _ (by rfl), pad4c_lt_iff hy1 hy2, pad4c_eq_iff hy1 hy2,
    lex_append_block _ _ (by rfl), pad2c_lt_iff hmo1 hmo2, pad2c_eq_iff hmo1 hmo2,
    lex_append_block _ _ (by rfl), pad2c_lt_iff hd1 hd2, pad2c_eq_iff hd1 hd2,
    lex_cons_iff,
    lex_append_block _ _ (by rfl), pad2c_lt_iff hh1 hh2, pad2c_eq_iff hh1 hh2,
    lex_append_block _ _ (by rfl), pad2c_lt_iff hmi1 hmi2, pad2c_eq_iff hmi1 hmi2,
    pad2c_lt_iff hs1 hs2]
  simp [lt_irrefl]

theorem nameBody_eq_iff {y1 mo1 d1 h1 mi1 s1 y2 mo2 d2 h2 mi2 s2 : Nat}
    (hy1 : y1 < 10000) (hmo1 : mo1 < 100) (hd1 : d1 < 100) (hh1 : h1 < 100)
    (hmi1 : mi1 < 100) (hs1 : s1 < 100)
    (hy2 : y2 < 10000) (hmo2 : mo2 < 100) (hd2 : d2 < 100) (hh2 : h2 < 100)
    (hmi2 : mi2 < 100) (hs2 : s2 < 100) :
    nameBody y1 mo1 d1 h1 mi1 s1 = nameBody y2 mo2 d2 h2 mi2 s2
      ↔ (y1 = y2 ∧ mo1 = mo2 ∧ d1 = d2 ∧ h1 = h2 ∧ mi1 = mi2 ∧ s1 = s2) := by
  unfold nameBody
  rw [append_block_eq_iff (by rfl), pad4c_eq_iff hy1 hy2,
    append_block_eq_iff (by rfl), pad2c_eq_iff hmo1 hmo2,
    append_block_eq_iff (by rfl), pad2c_eq_iff hd1 hd2,
    List.cons.injEq,
    append_block_eq_iff (by rfl), pad2c_eq_iff hh1 hh2,
    append_block_eq_iff (by rfl), pad2c_eq_iff hmi1 hmi2,
    pad2c_eq_iff hs1 hs2]
  tauto

theorem pad2c_all_digit {n : Nat} (h : n < 100) : ∀ c ∈ pad2c n, c.isDigit = true := by
  intro c hc
  simp only [pad2c, List.mem_cons, List.not_mem_nil, or_false] at hc
  rcases hc with rfl | rfl
  · exact digitChar_isDigit (by omega)
  · exact digitChar_isDigit (by omega)

theorem pad4c_all_digit {n : Nat} (h : n < 10000) : ∀ c ∈ pad4c n, c.isDigit = true := by
  intro c hc
  simp only [pad4c, List.mem_append] at hc
  rcases hc with hc | hc
  · exact pad2c_all_digit (by omega) c hc
  · exact pad2c_all_digit (by omega) c hc

theorem isDigit_toNat {c : Char} (h : c.isDigit = true) :
    48 ≤ c.toNat ∧ c.toNat ≤ 57 := by
  simp only [Char.isDigit, ge_iff_le, Bool.and_eq_true, decide_eq_true_eq] at h
  obtain ⟨h1, h2⟩ := h
  exact ⟨BitVec.le_def.mp (UInt32.le_def.mp h1), BitVec.le_def.mp (UInt32.le_def.mp h2)⟩

theorem digit_rebuild {c : Char} (h : c.isDigit = true) :
    c.toNat - 48 < 10 ∧ Nat.digitChar (c.toNat - 48) = c := by
  obtain ⟨h1, h2⟩ := isDigit_toNat h
  refine ⟨by omega, ?_⟩
  rw [digitChar_ofNat _ (by omega), show 48 + (c.toNat - 48) = c.toNat by omega,
    Char.ofNat_toNat]

theorem toList_append (a b : String) : (a ++ b).toList = a.toList ++ b.toList :=
  String.data_append a b

theorem takeWhile_all_append {p : Char → Bool} (xs : List Char) {y : Char}
    (ys : List Char) (hxs : ∀ c ∈ xs, p c = true) (hy : p y = false) :
    (xs ++ y :: ys).takeWhile p = xs := by
  induction xs with
  | nil => simp [List.takeWhile_cons, hy]
  | cons x xs ih =>
    rw [List.cons_append, List.takeWhile_cons_of_pos (hxs x (by simp)),
      ih (fun c hc => hxs c (by simp [hc]))]

theorem dropWhile_all_append {p : Char → Bool} (xs : List Char) {y : Char}
    (ys : List Char) (hxs : ∀ c ∈ xs, p c = true) (hy : p y = false) :
    (xs ++ y :: ys).dropWhile p = y :: ys := by
  induction xs with
  | nil => simp [List.dropWhile_cons, hy]
  | cons x xs ih =>
    simp only [List.cons_append, List.dropWhile_cons, hxs x (by simp), if_pos]
    exact ih (fun c hc => hxs c (by simp [hc]))

end Js

namespace Ext

open Js

theorem stripMsTail_append (A ds : List Char) (h0 : ds ≠ [])
    (hds : ∀ c ∈ ds, c.isDigit = true) :
    stripMsTail (A ++ '.' :: (ds ++ ['Z'])) = A := by
  have hrev : (A ++ '.' :: (ds ++ ['Z'])).reverse
      = 'Z' :: (ds.reverse ++ '.' :: A.reverse) := by
    simp
  have htake : (ds.reverse ++ '.' :: A.reverse).takeWhile Char.isDigit
      = ds.reverse :=
    takeWhile_all_append _ _ (fun c hc => hds c (List.mem_reverse.mp hc)) (by decide)
  have hdrop : (ds.reverse ++ '.' :: A.reverse).dropWhile Char.isDigit
      = '.' :: A.reverse :=
    dropWhile_all_append _ _ (fun c hc => hds c (List.mem_reverse.mp hc)) (by decide)
  unfold stripMsTail
  split
  · rename_i rest heq
    rw [hrev] at heq
    injection heq with h1 h2
    subst h2
    rw [htake, hdrop]
    have hrne : ds.reverse ≠ [] := by simpa using h0
    obtain ⟨e, es, hcons⟩ := List.exists_cons_of_ne_nil hrne
    rw [hcons]
    simp [stripParts]
  · rename_i hne
    exact absurd hrev (hne _)

theorem clean_keep_digit {c : Char} (h : c.isDigit = true) :
    (!(c == '-' || c == ':')) = true := by
  obtain ⟨h1, h2⟩ := isDigit_toNat h
  have hc1 : c ≠ '-' := by
    intro e; subst e; exact absurd h1 (by decide)
  have hc2 : c ≠ ':' := by
    intro e; subst e; exact absurd h2 (by decide)
  simp [hc1, hc2]

theorem filter_clean_digits {l : List Char} (h : ∀ c ∈ l, c.isDigit = true) :
    l.filter (fun c => !(c == '-' || c == ':')) = l :=
  List.filter_eq_self.mpr (fun c hc => clean_keep_digit (h c hc))

theorem cleanName_toList (s : String) : (cleanName s).toList
    = (stripMsTail s.toList).filter (fun c => !(c == '-' || c == ':')) := rfl

/-- For a valid clock reading, the cleaned `toLocalISOString` is exactly the
canonical 15-character `YYYYMMDDTHHMMSS` body built from the clock fields. -/
theorem cleanName_toLocal (t : Clock) (hv : t.Valid) :
    (cleanName (toLocalISOString t)).toList
      = nameBody t.year (t.monthIdx + 1) t.day t.hour t.minute t.second := by
  obtain ⟨hy1, hy2, hmo, hd1, hd2, hh, hmi, hs, hms⟩ := hv
  have hlist : (toLocalISOString t).toList =
      ((toString t.year).toList ++ '-' :: ((pad (t.monthIdx + 1) 2).toList
        ++ '-' :: ((pad t.day 2).toList ++ 'T' :: ((pad t.hour 2).toList
        ++ ':' :: ((pad t.minute 2).toList ++ ':' :: (pad t.second 2).toList)))))
      ++ '.' :: ((msFrac t.ms).toList ++ ['Z']) := by
    show (toLocalISOString t).data = _
    simp [toLocalISOString, msFrac, String.data_append, List.append_assoc]
  have hstrip : stripMsTail (toLocalISOString t).toList =
      (toString t.year).toList ++ '-' :: ((pad (t.monthIdx + 1) 2).toList
        ++ '-' :: ((pad t.day 2).toList ++ 'T' :: ((pad t.hour 2).toList
        ++ ':' :: ((pad t.minute 2).toList ++ ':' :: (pad t.second 2).toList)))) := by
    rw [hlist]
    exact stripMsTail_append _ _ (pad_toList_ne_nil t.ms 3) (fun c hc => pad_all_digit t.ms 3 c hc)
  rw [cleanName_toList, hstrip]
  rw [toString_four_toList hy1 (by omega),
    pad_two_toList (n := t.monthIdx + 1) (by omega),
    pad_two_toList (n := t.day) (by omega),
    pad_two_toList (n := t.hour) (by omega),
    pad_two_toList (n := t.minute) (by omega),
    pad_two_toList (n := t.second) (by omega)]
  rw [List.filter_append, List.filter_cons_of_neg (by decide),
    List.filter_append, List.filter_cons_of_neg (by decide),
    List.filter_append, List.filter_cons_of_pos (by decide),
    List.filter_append, List.filter_cons_of_neg (by decide),
    List.filter_append, List.filter_cons_of_neg (by decide)]
  rw [filter_clean_digits (pad4c_all_digit (by omega)),
    filter_clean_digits (pad2c_all_digit (by omega)),
    filter_clean_digits (pad2c_all_digit (by omega)),
    filter_clean_digits (pad2c_all_digit (by omega)),
    filter_clean_digits (pad2c_all_digit (by omega)),
    filter_clean_digits (pad2c_all_digit (by omega))]
  rfl

theorem backupFileName_toList (t : Clock) (hv : t.Valid) :
    (backupFileName t).toList
      = nameBody t.year (t.monthIdx + 1) t.day t.hour t.minute t.second
        ++ ['.', 'j', 's', 'o', 'n'] := by
  rw [backupFileName, toList_append, cleanName_toLocal t hv]
  rfl

theorem isSnapshotName_cons (c1 c2 c3 c4 c5 c6 c7 c8 c9 c10 c11 c12 c13 c14 c15 : Char)
    (rest : List Char) (s : String)
    (hs : s.toList = c1 :: c2 :: c3 :: c4 :: c5 :: c6 :: c7 :: c8 :: c9 :: c10
      :: c11 :: c12 :: c13 :: c14 :: c15 :: rest) :
    isSnapshotName s =
      ([c1, c2, c3, c4, c5, c6, c7, c8].all Char.isDigit && c9 == 'T' &&
        [c10, c11, c12, c13, c14, c15].all Char.isDigit &&
        (rest == [] || rest == ['.', 'j', 's', 'o', 'n'])) := by
  unfold isSnapshotName
  rw [hs]

end Ext

namespace Js

/-- The 15 characters of a name body, written out. -/
theorem nameBody_explicit (y mo d h mi s : Nat) :
    nameBody y mo d h mi s =
      [Nat.digitChar (y / 100 / 10), Nat.digitChar (y / 100 % 10),
       Nat.digitChar (y % 100 / 10), Nat.digitChar (y % 100 % 10),
       Nat.digitChar (mo / 10), Nat.digitChar (mo % 10),
       Nat.digitChar (d / 10), Nat.digitChar (d % 10), 'T',
       Nat.digitChar (h / 10), Nat.digitChar (h % 10),
       Nat.digitChar (mi / 10), Nat.digitChar (mi % 10),
       Nat.digitChar (s / 10), Nat.digitChar (s % 10)] := rfl

theorem digitChar_toNat : ∀ v, v < 10 → (Nat.digitChar v).toNat = 48 + v := by decide

theorem parseIntStr_pad2c {n : Nat} (h : n < 100) :
    parseIntStr (pad2c n).asString = some n := by
  have h1 : n / 10 < 10 := by omega
  have h2 : n % 10 < 10 := by omega
  rw [parseIntStr]
  simp only [List.toList_asString, pad2c, List.takeWhile_cons,
    digitChar_isDigit h1, digitChar_isDigit h2, List.takeWhile_nil]
  simp [digitChar_toNat _ h1, digitChar_toNat _ h2]
  omega

theorem parseIntStr_pad4c {n : Nat} (h : n < 10000) :
    parseIntStr (pad4c n).asString = some n := by
  have h1 : n / 100 / 10 < 10 := by omega
  have h2 : n / 100 % 10 < 10 := by omega
  have h3 : n % 100 / 10 < 10 := by omega
  have h4 : n % 100 % 10 < 10 := by omega
  rw [parseIntStr]
  have he : (pad4c n).asString.toList = [Nat.digitChar (n / 100 / 10),
      Nat.digitChar (n / 100 % 10), Nat.digitChar (n % 100 / 10),
      Nat.digitChar (n % 100 % 10)] := by
    rw [List.toList_asString]; rfl
  rw [he]
  simp only [List.takeWhile_cons, digitChar_isDigit h1, digitChar_isDigit h2,
    digitChar_isDigit h3, digitChar_isDigit h4, List.takeWhile_nil]
  simp [digitChar_toNat _ h1, digitChar_toNat _ h2, digitChar_toNat _ h3,
    digitChar_toNat _ h4]
  omega

end Js

namespace Ext

open Js

/-- A name accepted by `isSnapshotName` is exactly a canonical 15-character
body over six in-range numeric fields, optionally suffixed `.json`. -/
theorem isSnapshotName_destruct {str : String} (hacc : isSnapshotName str = true) :
    ∃ y mo d h mi s rest, y < 10000 ∧ mo < 100 ∧ d < 100 ∧ h < 100 ∧ mi < 100 ∧
      s < 100 ∧ str.toList = nameBody y mo d h mi s ++ rest ∧
      (rest = [] ∨ rest = ['.', 'j', 's', 'o', 'n']) := by
  unfold isSnapshotName at hacc
  split at hacc
  case h_2 => exact absurd hacc (by simp)
  case h_1 c1 c2 c3 c4 c5 c6 c7 c8 c9 c10 c11 c12 c13 c14 c15 rest heq =>
    simp only [List.all_cons, List.all_nil, Bool.and_eq_true, Bool.and_true,
      beq_iff_eq, Bool.or_eq_true, List.cons.injEq] at hacc
    obtain ⟨⟨⟨⟨h1, h2, h3, h4, h5, h6, h7, h8⟩, hT⟩,
      h10, h11, h12, h13, h14, h15⟩, hrest⟩ := hacc
    obtain ⟨b1, e1⟩ := digit_rebuild h1
    obtain ⟨b2, e2⟩ := digit_rebuild h2
    obtain ⟨b3, e3⟩ := digit_rebuild h3
    obtain ⟨b4, e4⟩ := digit_rebuild h4
    obtain ⟨b5, e5⟩ := digit_rebuild h5
    obtain ⟨b6, e6⟩ := digit_rebuild h6
    obtain ⟨b7, e7⟩ := digit_rebuild h7
    obtain ⟨b8, e8⟩ := digit_rebuild h8
    obtain ⟨b10, e10⟩ := digit_rebuild h10
    obtain ⟨b11, e11⟩ := digit_rebuild h11
    obtain ⟨b12, e12⟩ := digit_rebuild h12
    obtain ⟨b13, e13⟩ := digit_rebuild h13
    obtain ⟨b14, e14⟩ := digit_rebuild h14
    obtain ⟨b15, e15⟩ := digit_rebuild h15
    refine ⟨((c1.toNat - 48) * 10 + (c2.toNat - 48)) * 100
        + ((c3.toNat - 48) * 10 + (c4.toNat - 48)),
      (c5.toNat - 48) * 10 + (c6.toNat - 48),
      (c7.toNat - 48) * 10 + (c8.toNat - 48),
      (c10.toNat - 48) * 10 + (c11.toNat - 48),
      (c12.toNat - 48) * 10 + (c13.toNat - 48),
      (c14.toNat - 48) * 10 + (c15.toNat - 48),
      rest, by omega, by omega, by omega, by omega, by omega, by omega, ?_, ?_⟩
    · rw [heq, nameBody_explicit]
      have q1 : (((c1.toNat - 48) * 10 + (c2.toNat - 48)) * 100
          + ((c3.toNat - 48) * 10 + (c4.toNat - 48))) / 100 / 10 = c1.toNat - 48 := by
        omega
      have q2 : (((c1.toNat - 48) * 10 + (c2.toNat - 48)) * 100
          + ((c3.toNat - 48) * 10 + (c4.toNat - 48))) / 100 % 10 = c2.toNat - 48 := by
        omega
      have q3 : (((c1.toNat - 48) * 10 + (c2.toNat - 48)) * 100
          + ((c3.toNat - 48) * 10 + (c4.toNat - 48))) % 100 / 10 = c3.toNat - 48 := by
        omega
      have q4 : (((c1.toNat - 48) * 10 + (c2.toNat - 48)) * 100
          + ((c3.toNat - 48) * 10 + (c4.toNat - 48))) % 100 % 10 = c4.toNat - 48 := by
        omega
      have r1 : ((c5.toNat - 48) * 10 + (c6.toNat - 48)) / 10 = c5.toNat - 48 := by omega
      have r2 : ((c5.toNat - 48) * 10 + (c6.toNat - 48)) % 10 = c6.toNat - 48 := by omega
      have r3 : ((c7.toNat - 48) * 10 + (c8.toNat - 48)) / 10 = c7.toNat - 48 := by omega
      have r4 : ((c7.toNat - 48) * 10 + (c8.toNat - 48)) % 10 = c8.toNat - 48 := by omega
      have r5 : ((c10.toNat - 48) * 10 + (c11.toNat - 48)) / 10 = c10.toNat - 48 := by omega
      have r6 : ((c10.toNat - 48) * 10 + (c11.toNat - 48)) % 10 = c11.toNat - 48 := by omega
      have r7 : ((c12.toNat - 48) * 10 + (c13.toNat - 48)) / 10 = c12.toNat - 48 := by omega
      have r8 : ((c12.toNat - 48) * 10 + (c13.toNat - 48)) % 10 = c13.toNat - 48 := by omega
      have r9 : ((c14.toNat - 48) * 10 + (c15.toNat - 48)) / 10 = c14.toNat - 48 := by omega
      have r10 : ((c14.toNat - 48) * 10 + (c15.toNat - 48)) % 10 = c15.toNat - 48 := by omega
      rw [q1, q2, q3, q4, r1, r2, r3, r4, r5, r6, r7, r8, r9, r10,
        e1, e2, e3, e4, e5, e6, e7, e8, e10, e11, e12, e13, e14, e15, hT]
      rfl
    · rcases hrest with hnil | hjson
      · left; exact (List.isEmpty_iff).mp (by simpa using hnil)
      · right; simpa using hjson

/-- `getCreationTime` on a name whose characters form a canonical body
(optionally suffixed): each field parses back to its numeric value and the
result is the `Date` built from those fields. -/
theorem getCreationTime_nameBody {y mo d h mi s : Nat} {rest : List Char}
    (hy : y < 10000) (hmo : mo < 100) (hd : d < 100) (hh : h < 100)
    (hmi : mi < 100) (hs : s < 100) (str : String)
    (hstr : str.toList = nameBody y mo d h mi s ++ rest) :
    getCreationTime str
      = some (dateMillis (y : Int) ((mo : Int) - 1) (d : Int) (h : Int)
          (mi : Int) (s : Int)) := by
  have e0 : substr str 0 4 = (pad4c y).asString := by
    rw [substr, hstr, nameBody_explicit]; rfl
  have e1 : substr str 4 6 = (pad2c mo).asString := by
    rw [substr, hstr, nameBody_explicit]; rfl
  have e2 : substr str 6 8 = (pad2c d).asString := by
    rw [substr, hstr, nameBody_explicit]; rfl
  have e3 : substr str 9 11 = (pad2c h).asString := by
    rw [substr, hstr, nameBody_explicit]; rfl
  have e4 : substr str 11 13 = (pad2c mi).asString := by
    rw [substr, hstr, nameBody_explicit]; rfl
  have e5 : substr str 13 15 = (pad2c s).asString := by
    rw [substr, hstr, nameBody_explicit]; rfl
  rw [getCreationTime, e0, e1, e2, e3, e4, e5, parseIntStr_pad4c hy,
    parseIntStr_pad2c hmo, parseIntStr_pad2c hd, parseIntStr_pad2c hh,
    parseIntStr_pad2c hmi, parseIntStr_pad2c hs]
  rfl

end Ext

/-! ## Calendar arithmetic

Facts about the `Date` model needed to compare `getCreationTime` values:
the day-number function is monotone on calendar-valid field tuples. -/

namespace Js

/-- `1` in a leap year, `0` otherwise. -/
def leapBit (y : Int) : Int := if leapYear y then 1 else 0

theorem leapYear_iff (y : Int) :
    leapYear y = true ↔ (y % 4 = 0 ∧ y % 100 ≠ 0) ∨ y % 400 = 0 := by
  simp [leapYear, Bool.and_eq_true, Bool.or_eq_true]

theorem leapBit_nonneg (y : Int) : 0 ≤ leapBit y := by
  rw [leapBit]; split <;> omega

theorem leapBit_le_one (y : Int) : leapBit y ≤ 1 := by
  rw [leapBit]; split <;> omega

theorem daysFromYear0_step (y : Int) (hy : 0 ≤ y) :
    daysFromYear0 (y + 1) = daysFromYear0 y + 365 + leapBit y := by
  rw [daysFromYear0, daysFromYear0, leapBit]
  rw [Int.fdiv_eq_ediv _ (by omega : (0:Int) ≤ 4),
    Int.fdiv_eq_ediv _ (by omega : (0:Int) ≤ 100),
    Int.fdiv_eq_ediv _ (by omega : (0:Int) ≤ 400),
    Int.fdiv_eq_ediv _ (by omega : (0:Int) ≤ 4),
    Int.fdiv_eq_ediv _ (by omega : (0:Int) ≤ 100),
    Int.fdiv_eq_ediv _ (by omega : (0:Int) ≤ 400)]
  by_cases hl : leapYear y = true
  · rw [if_pos hl]
    rw [leapYear_iff] at hl
    omega
  · rw [if_neg hl]
    rw [leapYear_iff] at hl
    omega

theorem daysFromYear0_add (y : Int) (hy : 0 ≤ y) (k : Nat) :
    daysFromYear0 y + 365 * k ≤ daysFromYear0 (y + k) := by
  induction k with
  | zero => simp
  | succ n ih =>
    have hstep := daysFromYear0_step (y + n) (by omega)
    have hbit := leapBit_nonneg (y + n)
    push_cast
    push_cast at ih
    have : y + (n + 1 : Int) = (y + n) + 1 := by ring
    rw [this, hstep]
    omega

theorem daysFromYear0_gap {y1 y2 : Int} (h0 : 0 ≤ y1) (h : y1 < y2) :
    daysFromYear0 y1 + 365 + leapBit y1 ≤ daysFromYear0 y2 := by
  have hstep := daysFromYear0_step y1 h0
  have hadd := daysFromYear0_add (y1 + 1) (by omega) (y2 - (y1 + 1)).toNat
  have he : y1 + 1 + ((y2 - (y1 + 1)).toNat : Int) = y2 := by omega
  rw [he] at hadd
  omega

/-- Cumulative days before month `mo` (1-based) in a non-leap year, as a
function (the same table as `monthOffsets`). -/
def offN : Nat → Nat
  | 1 => 0 | 2 => 31 | 3 => 59 | 4 => 90 | 5 => 120 | 6 => 151
  | 7 => 181 | 8 => 212 | 9 => 243 | 10 => 273 | 11 => 304 | 12 => 334
  | _ => 0

/-- Number of days of month `mo` (1-based). -/
def lenN (leap : Bool) : Nat → Nat
  | 1 => 31 | 2 => if leap then 29 else 28 | 3 => 31 | 4 => 30 | 5 => 31
  | 6 => 30 | 7 => 31 | 8 => 31 | 9 => 30 | 10 => 31 | 11 => 30 | 12 => 31
  | _ => 0

/-- Leap-day adjustment for months after February. -/
def adjN (leap : Bool) (mo : Nat) : Nat := if 3 ≤ mo ∧ leap then 1 else 0

/-- Zero-based day of the year of `(mo, d)`. -/
def doyN (leap : Bool) (mo d : Nat) : Nat :=
  offN mo + adjN leap mo + (d - 1)

theorem month_step (leap : Bool) (mo : Nat) (h1 : 1 ≤ mo) (h2 : mo ≤ 11) :
    offN mo + adjN leap mo + lenN leap mo = offN (mo + 1) + adjN leap (mo + 1) := by
  interval_cases mo <;> cases leap <;> rfl

theorem lenN_pos (leap : Bool) (mo : Nat) (h1 : 1 ≤ mo) (h2 : mo ≤ 12) :
    1 ≤ lenN leap mo := by
  interval_cases mo <;> cases leap <;> decide

theorem lenN_le (leap : Bool) (mo : Nat) (h1 : 1 ≤ mo) (h2 : mo ≤ 12) :
    lenN leap mo ≤ 31 := by
  interval_cases mo <;> cases leap <;> decide

theorem gN_mono (leap : Bool) {mo1 mo2 : Nat} (h1 : 1 ≤ mo1) (h : mo1 ≤ mo2)
    (h2 : mo2 ≤ 12) :
    offN mo1 + adjN leap mo1 ≤ offN mo2 + adjN leap mo2 := by
  induction mo2 with
  | zero => omega
  | succ m ih =>
    by_cases he : mo1 = m + 1
    · subst he; omega
    · have hm : mo1 ≤ m := by omega
      by_cases hm12 : m + 1 ≤ 12
      · have hstep := month_step leap m (by omega) (by omega)
        have := ih hm (by omega)
        omega
      · omega

theorem doyN_mono (leap : Bool) {mo1 mo2 d1 d2 : Nat}
    (hm1a : 1 ≤ mo1) (hm2a : 1 ≤ mo2) (hm2b : mo2 ≤ 12)
    (hd2a : 1 ≤ d2) (hlen : d1 ≤ lenN leap mo1)
    (hlt : mo1 < mo2 ∨ (mo1 = mo2 ∧ d1 ≤ d2)) :
    doyN leap mo1 d1 ≤ doyN leap mo2 d2 := by
  rcases hlt with hlt | ⟨rfl, hle⟩
  · have hstep := month_step leap mo1 hm1a (by omega)
    have hmono := @gN_mono leap (mo1 + 1) mo2 (by omega) (by omega) hm2b
    rw [doyN, doyN]
    omega
  · rw [doyN, doyN]
    omega

/-- With `mo1 < mo2` the day of the year strictly increases. -/
theorem doyN_mono_strict (leap : Bool) {mo1 mo2 d1 d2 : Nat}
    (hm1a : 1 ≤ mo1) (hm2a : 1 ≤ mo2) (hm2b : mo2 ≤ 12)
    (hd1a : 1 ≤ d1) (hd2a : 1 ≤ d2) (hlen : d1 ≤ lenN leap mo1)
    (hlt : mo1 < mo2 ∨ (mo1 = mo2 ∧ d1 < d2)) :
    doyN leap mo1 d1 < doyN leap mo2 d2 := by
  rcases hlt with hlt | ⟨rfl, hle⟩
  · have hstep := month_step leap mo1 hm1a (by omega)
    have hmono := @gN_mono leap (mo1 + 1) mo2 (by omega) (by omega) hm2b
    have hl1 := lenN_pos leap mo1 hm1a (by omega)
    rw [doyN, doyN]
    omega
  · have hl1 := lenN_pos leap mo1 hm1a hm2b
    rw [doyN, doyN]
    omega

theorem doyN_ub (leap : Bool) {mo d : Nat} (h1 : 1 ≤ mo) (h2 : mo ≤ 12)
    (hd : d ≤ lenN leap mo) :
    doyN leap mo d ≤ 364 + adjN leap 12 := by
  have ho : offN 12 = 334 := rfl
  have hl12 : lenN leap 12 = 31 := by cases leap <;> rfl
  by_cases hm : mo = 12
  · subst hm
    rw [doyN]
    omega
  · have hstep := month_step leap mo h1 (by omega)
    have hmono := @gN_mono leap (mo + 1) 12 (by omega) (by omega) (by omega)
    rw [doyN]
    omega

theorem monthOffsets_getD {mo : Nat} (h1 : 1 ≤ mo) (h2 : mo ≤ 12) :
    monthOffsets.getD (mo - 1) 0 = (offN mo : Int) := by
  interval_cases mo <;> rfl

theorem adjN_eq (leap : Bool) {mo : Nat} (h1 : 1 ≤ mo) :
    (adjN leap mo : Int) = if 2 ≤ (mo : Int) - 1 then (if leap then 1 else 0) else 0 := by
  rw [adjN]
  by_cases h3 : 3 ≤ mo
  · rw [if_pos (by omega : 2 ≤ (mo : Int) - 1)]
    cases leap <;> simp [h3]
  · rw [if_neg (by omega : ¬ 2 ≤ (mo : Int) - 1)]
    simp [h3]

/-- `MakeDay` on a calendar-valid month and day decomposes into the days
before the year plus the day of the year. -/
theorem makeDay_valid {y : Int} {mo d : Nat} (hy : 0 ≤ y) (hmo1 : 1 ≤ mo)
    (hmo2 : mo ≤ 12) (hd : 1 ≤ d) :
    makeDay y ((mo : Int) - 1) (d : Int)
      = daysFromYear0 y - 719528 + (doyN (leapYear y) mo d : Int) := by
  have hfd : ((mo : Int) - 1).fdiv 12 = 0 := by
    rw [Int.fdiv_eq_ediv _ (by omega : (0:Int) ≤ 12)]
    omega
  have hfm : ((mo : Int) - 1).fmod 12 = (mo : Int) - 1 := by
    rw [Int.fmod_eq_emod _ (by omega : (0:Int) ≤ 12)]
    omega
  have htn : ((mo : Int) - 1).toNat = mo - 1 := by omega
  rw [makeDay]
  simp only [hfd, hfm, add_zero, htn]
  rw [monthOffsets_getD hmo1 hmo2]
  rw [doyN]
  push_cast [adjN_eq (leapYear y) hmo1]
  omega

/-- Calendar-valid fields for the six numeric components of a snapshot name:
four-digit year at least 100 (below 100 the `Date` constructor shifts the
year by 1900), real month, day within the month, and in-range time fields. -/
def ValidFields (y mo d h mi s : Nat) : Prop :=
  100 ≤ y ∧ y ≤ 9999 ∧ 1 ≤ mo ∧ mo ≤ 12 ∧ 1 ≤ d ∧ d ≤ lenN (leapYear (y : Int)) mo ∧
    h ≤ 23 ∧ mi ≤ 59 ∧ s ≤ 59

instance (y mo d h mi s : Nat) : Decidable (ValidFields y mo d h mi s) := by
  unfold ValidFields; infer_instance

/-- Non-strict lexicographic order on field tuples. -/
def fieldsLe (y1 mo1 d1 h1 mi1 s1 y2 mo2 d2 h2 mi2 s2 : Nat) : Prop :=
  fieldsLt y1 mo1 d1 h1 mi1 s1 y2 mo2 d2 h2 mi2 s2 ∨
    (y1 = y2 ∧ mo1 = mo2 ∧ d1 = d2 ∧ h1 = h2 ∧ mi1 = mi2 ∧ s1 = s2)

theorem dateMillis_decomp {y mo d h mi s : Nat} (hv : ValidFields y mo d h mi s) :
    dateMillis (y : Int) ((mo : Int) - 1) (d : Int) (h : Int) (mi : Int) (s : Int)
      = (daysFromYear0 (y : Int) - 719528
          + (doyN (leapYear (y : Int)) mo d : Int)) * 86400000
        + makeTime (h : Int) (mi : Int) (s : Int) := by
  obtain ⟨hy1, hy2, hmo1, hmo2, hd1, hd2, hh, hmi, hs⟩ := hv
  rw [dateMillis]
  rw [if_neg (by omega : ¬ (0 ≤ (y : Int) ∧ (y : Int) ≤ 99))]
  rw [makeDay_valid (by omega) hmo1 hmo2 hd1]

/-- Monotonicity of the `Date` time value on calendar-valid field tuples:
lexicographically ordered fields give ordered time values. -/
theorem dateMillis_mono {y1 mo1 d1 h1 mi1 s1 y2 mo2 d2 h2 mi2 s2 : Nat}
    (hv1 : ValidFields y1 mo1 d1 h1 mi1 s1) (hv2 : ValidFields y2 mo2 d2 h2 mi2 s2)
    (hle : fieldsLe y1 mo1 d1 h1 mi1 s1 y2 mo2 d2 h2 mi2 s2) :
    dateMillis (y1 : Int) ((mo1 : Int) - 1) (d1 : Int) (h1 : Int) (mi1 : Int) (s1 : Int)
      ≤ dateMillis (y2 : Int) ((mo2 : Int) - 1) (d2 : Int) (h2 : Int) (mi2 : Int)
          (s2 : Int) := by
  rw [dateMillis_decomp hv1, dateMillis_decomp hv2]
  obtain ⟨hy1a, hy1b, hmo1a, hmo1b, hd1a, hd1b, hh1, hmi1, hs1⟩ := hv1
  obtain ⟨hy2a, hy2b, hmo2a, hmo2b, hd2a, hd2b, hh2, hmi2, hs2⟩ := hv2
  have htime1 : 0 ≤ makeTime (h1 : Int) (mi1 : Int) (s1 : Int) ∧
      makeTime (h1 : Int) (mi1 : Int) (s1 : Int) ≤ 86399000 := by
    rw [makeTime]; omega
  have htime2 : 0 ≤ makeTime (h2 : Int) (mi2 : Int) (s2 : Int) ∧
      makeTime (h2 : Int) (mi2 : Int) (s2 : Int) ≤ 86399000 := by
    rw [makeTime]; omega
  rcases hle with hlt | ⟨rfl, rfl, rfl, rfl, rfl, rfl⟩
  · rcases hlt with hy | ⟨hyeq, hrest⟩
    · -- year strictly increases
      have hgap := @daysFromYear0_gap ((y1 : Int)) ((y2 : Int))
        (by omega) (by omega)
      have hub := doyN_ub (leapYear (y1 : Int)) hmo1a hmo1b hd1b
      have hlb : (0 : Int) ≤ (doyN (leapYear (y2 : Int)) mo2 d2 : Int) := by omega
      have hadj : (adjN (leapYear (y1 : Int)) 12 : Int) = leapBit (y1 : Int) := by
        rw [adjN, leapBit]
        cases hc : leapYear (y1 : Int)
        · simp
        · simp
      have hub2 : (doyN (leapYear (y1 : Int)) mo1 d1 : Int)
          ≤ 364 + leapBit (y1 : Int) := by
        rw [← hadj]
        exact_mod_cast hub
      omega
    · -- same year
      have hyeq2 : y1 = y2 := hyeq
      subst hyeq2
      rcases hrest with hmo | ⟨hmoeq, hrest2⟩
      · have hdoy := doyN_mono_strict (leapYear (y1 : Int)) hmo1a hmo2a hmo2b
          hd1a hd2a hd1b (Or.inl hmo)
        have hdoy2 : (doyN (leapYear (y1 : Int)) mo1 d1 : Int) + 1
            ≤ (doyN (leapYear (y1 : Int)) mo2 d2 : Int) := by exact_mod_cast hdoy
        omega
      · subst hmoeq
        rcases hrest2 with hd | ⟨hdeq, hrest3⟩
        · have hdoy := doyN_mono_strict (leapYear (y1 : Int)) hmo1a hmo1a hmo2b
            hd1a hd2a hd1b (Or.inr ⟨rfl, hd⟩)
          have hdoy2 : (doyN (leapYear (y1 : Int)) mo1 d1 : Int) + 1
              ≤ (doyN (leapYear (y1 : Int)) mo1 d2 : Int) := by exact_mod_cast hdoy
          omega
        · subst hdeq
          have hmt : makeTime (h1 : Int) (mi1 : Int) (s1 : Int)
              ≤ makeTime (h2 : Int) (mi2 : Int) (s2 : Int) := by
            rw [makeTime, makeTime]
            rcases hrest3 with hh | ⟨hheq, hrest4⟩
            · omega
            · rcases hrest4 with hmi | ⟨hmieq, hsle⟩ <;> omega
          omega
  · omega

end Js

namespace Variant

open Js

/-- `toLocalISOString(date)` from the unnamed variant (same code as in
`src/extension.ts`). -/
def toLocalISOString (t : Clock) : String :=
  toString t.year ++ "-" ++ pad (t.monthIdx + 1) 2 ++ "-" ++ pad t.day 2 ++
    "T" ++ pad t.hour 2 ++ ":" ++ pad t.minute 2 ++ ":" ++ pad t.second 2 ++
    "." ++ msFrac t.ms ++ "Z"

/-- The filename `UserDataChangesBackupService.backup` writes for clock
reading `t`. -/
def backupFileName (t : Clock) : String :=
  cleanName (toLocalISOString t) ++ ".json"

/-- The name filter from the variant `UserDataBackupResolver.getAllEntries`
(same regex as in `src/extension.ts`). -/
def isSnapshotName (s : String) : Bool :=
  match s.toList with
  | a :: b :: c :: d :: e :: f :: g :: h :: t :: i :: j :: k :: l :: m :: n :: rest =>
    [a, b, c, d, e, f, g, h].all Char.isDigit && t == 'T' &&
      [i, j, k, l, m, n].all Char.isDigit &&
      (rest == [] || rest == ['.', 'j', 's', 'o', 'n'])
  | _ => false

/-- `UserDataBackupResolver.getCreationTime` (same code as in
`src/extension.ts`). -/
def getCreationTime (name : String) : Option Int := do
  let y ← parseIntStr (substr name 0 4)
  let mo ← parseIntStr (substr name 4 6)
  let d ← parseIntStr (substr name 6 8)
  let h ← parseIntStr (substr name 9 11)
  let mi ← parseIntStr (substr name 11 13)
  let s ← parseIntStr (substr name 13 15)
  pure (dateMillis (y : Int) ((mo : Int) - 1) (d : Int) (h : Int) (mi : Int) (s : Int))

/-- `vscode.Uri.file(path.join('', resource, name)).with(scheme)`. -/
structure VUri where
  scheme : String
  path : String
deriving Repr, DecidableEq

/-- `path.join('', resource, name)`. -/
def pathJoin (resource name : String) : String := resource ++ "/" ++ name

/-- `IUserDataBackupEntry` from the unnamed variant: it additionally
carries the backup `uri`. -/
structure Entry where
  resource : String
  uri : VUri
  name : String
  created : Option Int
deriving Repr, DecidableEq

/-- The variant `UserDataBackupResolver.getAllEntries` applied to the
outcome of the `readdir` call. -/
def getAllEntriesFrom (scheme resource : String)
    (listing : Except String (List String)) : List Entry :=
  match listing with
  | .error _ => []
  | .ok children =>
    let all := ((children.filter isSnapshotName).mergeSort
      (fun a b => strLe a b)).reverse
    all.map (fun name =>
      ⟨resource, ⟨scheme, pathJoin resource name⟩, name, getCreationTime name⟩)

/-- The variant `UserDataBackupResolver.resolveContent` applied to the
outcome of the `readFile` call. -/
def resolveContentFrom (r : Except String String) : String :=
  match r with
  | .ok c => c
  | .error _ => ""

def getAllEntries (scheme : String) (fs : FsState) (res : String) : List Entry :=
  getAllEntriesFrom scheme res (readdirFs fs res)

def resolveContent (fs : FsState) (res name : String) : String :=
  resolveContentFrom (readFileFs fs res name)

/-- `UserDataChangesBackupService.backup` (same code as the `backup` in
`src/extension.ts`). -/
def backup (fs : FsState) (res : String) (now : Clock)
    (liveRead : Except String String) : FsState × Except String (List String) :=
  let fs1 : FsState :=
    { fs with dirs := if res ∈ fs.dirs then fs.dirs else fs.dirs ++ [res] }
  match liveRead with
  | .error e => (fs1, .error e)
  | .ok content =>
    ({ fs1 with files := setFile fs1.files (res, backupFileName now) content },
      .ok [res])

/-- `UserDataSyncBackupResolver.resolveContent`: the base read (fail-soft),
then `JSON.parse` and destructure `content`, then `JSON.parse` that and
destructure `settings`.  `undefined`-producing shapes (missing or
non-string fields, which JavaScript would coerce before the next step or
return as `undefined` despite the declared string result type) are modelled
as failures; every sync snapshot this resolver is pointed at wraps a string,
and every claim below touches only the string-shaped and failing cases. -/
def syncResolveContent (readResult : Except String String) : Except String String :=
  let resolvedContent := resolveContentFrom readResult
  match jsonParse resolvedContent with
  | .error e => .error e
  | .ok v =>
    match getField v "content" with
    | some (.str content) =>
      (match jsonParse content with
       | .error e => .error e
       | .ok v2 =>
         match getField v2 "settings" with
         | some (.str s) => .ok s
         | _ => .error "settings is not a string")
    | some _ => .error "content is not a string"
    | none => .error "content is undefined"

/-- `UserDataBackupTimelineProvider.filterEntries`: `slice(start, start+10)`
at the parsed cursor when the cursor is truthy, else the first ten entries.
`parseInt` of a truthy non-numeric cursor is `NaN`, and `slice(NaN, NaN)`
is the empty slice. -/
def filterEntries (entries : List Entry) (cursor : Option String) : List Entry :=
  match cursor with
  | some c =>
    if c == "" then entries.take 10
    else
      match parseIntStr c with
      | some start => (entries.drop start).take 10
      | none => []
  | none => entries.take 10

/-- The continuation cursor from `provideTimeline`:
`options.cursor ? parseInt(options.cursor) + 10 : 10`, published only when
`allEntries.length > cursor` (a comparison against `NaN` is false). -/
def nextCursor (allLen : Nat) (cursor : Option String) : Option String :=
  match cursor with
  | some c =>
    if c == "" then (if 10 < allLen then some (toString 10) else none)
    else
      match parseIntStr c with
      | some start => if start + 10 < allLen then some (toString (start + 10)) else none
      | none => none
  | none => if 10 < allLen then some (toString 10) else none

/-- The paging performed by `provideTimeline` on the full entry list: the
returned page and the continuation cursor. -/
def provideTimelinePaging (allEntries : List Entry) (cursor : Option String) :
    List Entry × Option String :=
  (filterEntries allEntries cursor, nextCursor allEntries.length cursor)

end Variant

/-! ## Sorting facts -/

namespace Js

theorem rel_getLast? {α : Type} {r : α → α → Prop} :
    ∀ {s : List α}, s.Pairwise r → ∀ {a z : α}, a ∈ s → s.getLast? = some z →
      a = z ∨ r a z := by
  intro s
  induction s with
  | nil => intro _ a z ha; simp at ha
  | cons x t ih =>
    intro hp a z ha hz
    rcases List.pairwise_cons.mp hp with ⟨hx, hpt⟩
    cases t with
    | nil =>
      simp at ha hz
      subst ha; subst hz; exact Or.inl rfl
    | cons y t2 =>
      rw [List.getLast?_cons_cons] at hz
      rcases List.mem_cons.mp ha with rfl | hat
      · have hzmem : z ∈ y :: t2 := List.mem_of_getLast?_eq_some hz
        exact Or.inr (hx z hzmem)
      · exact ih hpt hat hz

theorem mergeSort_strings_sorted (l : List String) :
    (l.mergeSort (fun a b => strLe a b)).Pairwise (· ≤ ·) := by
  have h : (l.mergeSort (fun a b => strLe a b)).Pairwise
      (fun a b => strLe a b = true) := by
    apply List.sorted_mergeSort
    · intro a b c hab hbc
      rw [strLe_iff] at hab hbc ⊢
      exact le_trans hab hbc
    · intro a b
      rcases le_total a b with hab | hab
      · simp [(strLe_iff a b).mpr hab]
      · simp [(strLe_iff b a).mpr hab]
  exact h.imp (fun hab => (strLe_iff _ _).mp hab)

/-- If `x` is an upper bound of `l` and occurs in `l`, it is the head of the
reversed merge sort of `l`. -/
theorem mergeSort_reverse_head {l : List String} {x : String} (hx : x ∈ l)
    (hmax : ∀ y ∈ l, y ≤ x) :
    ((l.mergeSort (fun a b => strLe a b)).reverse).head? = some x := by
  rw [List.head?_reverse]
  have hmem : x ∈ l.mergeSort (fun a b => strLe a b) := by
    rw [List.mem_mergeSort]; exact hx
  have hne : l.mergeSort (fun a b => strLe a b) ≠ [] := by
    intro h; rw [h] at hmem; simp at hmem
  rw [List.getLast?_eq_getLast _ hne]
  have hgmem := List.getLast_mem hne
  have h1 : (l.mergeSort (fun a b => strLe a b)).getLast hne ≤ x :=
    hmax _ (List.mem_mergeSort.mp hgmem)
  have h2 := rel_getLast? (mergeSort_strings_sorted l) hmem
    (List.getLast?_eq_getLast _ hne)
  have h3 : x ≤ (l.mergeSort (fun a b => strLe a b)).getLast hne := by
    rcases h2 with rfl | h2
    · exact le_refl _
    · exact h2
  rw [le_antisymm h1 h3]

end Js

/-! ## Filesystem write/lookup facts -/

namespace Js

theorem find_map_replace_self (k : String × String) (c : String) :
    ∀ (gs : List ((String × String) × String)), (∃ f0 ∈ gs, (f0.1 == k) = true) →
      (gs.map (fun f => if f.1 == k then (k, c) else f)).find? (fun f => f.1 == k)
        = some (k, c) := by
  intro gs
  induction gs with
  | nil => intro h; simp at h
  | cons g gs ih =>
    intro h
    by_cases hg : g.1 == k
    · simp only [List.map_cons, if_pos hg]
      rw [List.find?_cons_of_pos _ (by simp)]
    · simp only [List.map_cons, if_neg hg]
      rw [List.find?_cons_of_neg _ (by simpa using hg)]
      apply ih
      obtain ⟨f0, hmem, hf0⟩ := h
      rcases List.mem_cons.mp hmem with rfl | hmem2
      · rw [hf0] at hg; simp at hg
      · exact ⟨f0, hmem2, hf0⟩

theorem find_map_replace_other (k k2 : String × String) (c : String) (hne : k2 ≠ k) :
    ∀ (gs : List ((String × String) × String)),
      (gs.map (fun f => if f.1 == k then (k, c) else f)).find? (fun f => f.1 == k2)
        = gs.find? (fun f => f.1 == k2) := by
  intro gs
  induction gs with
  | nil => simp
  | cons g gs ih =>
    by_cases hg : g.1 == k
    · have hgk : g.1 = k := by simpa using hg
      simp only [List.map_cons, if_pos hg]
      have h1 : ((k, c).1 == k2) = false := by
        simp only [beq_eq_false_iff_ne, ne_eq]
        intro h; exact hne h.symm
      have h2 : (g.1 == k2) = false := by
        rw [hgk]
        simp only [beq_eq_false_iff_ne, ne_eq]
        intro h; exact hne h.symm
      rw [List.find?_cons_of_neg _ (by simp [h1]),
        List.find?_cons_of_neg _ (by simp [h2])]
      exact ih
    · simp only [List.map_cons, if_neg hg]
      by_cases hg2 : g.1 == k2
      · rw [List.find?_cons_of_pos _ (by simpa using hg2),
          List.find?_cons_of_pos _ (by simpa using hg2)]
      · rw [List.find?_cons_of_neg _ (by simpa using hg2),
          List.find?_cons_of_neg _ (by simpa using hg2)]
        exact ih

theorem setFile_find_self (files : List ((String × String) × String))
    (k : String × String) (c : String) :
    (setFile files k c).find? (fun f => f.1 == k) = some (k, c) := by
  rw [setFile]
  split
  · rename_i hany
    rw [List.any_eq_true] at hany
    exact find_map_replace_self k c files hany
  · rw [List.find?_append]
    rename_i hany
    have hnone : files.find? (fun f => f.1 == k) = none := by
      rw [List.find?_eq_none]
      intro x hx hpx
      exact hany (List.any_eq_true.mpr ⟨x, hx, hpx⟩)
    rw [hnone]
    simp

theorem setFile_find_other (files : List ((String × String) × String))
    (k k2 : String × String) (c : String) (hne : k2 ≠ k) :
    (setFile files k c).find? (fun f => f.1 == k2)
      = files.find? (fun f => f.1 == k2) := by
  rw [setFile]
  split
  · exact find_map_replace_other k k2 c hne files
  · rw [List.find?_append]
    have h1 : ([(k, c)].find? (fun f => f.1 == k2)) = none := by
      rw [List.find?_eq_none]
      intro x hx
      simp only [List.mem_singleton] at hx
      subst hx
      intro h
      have hkk : k = k2 := by simpa using h
      exact hne hkk.symm
    rw [h1]
    cases files.find? (fun f => f.1 == k2) <;> rfl

theorem setFile_length_fresh (files : List ((String × String) × String))
    (k : String × String) (c : String)
    (h : files.any (fun f => f.1 == k) = false) :
    (setFile files k c).length = files.length + 1 := by
  rw [setFile, if_neg (by simp [h])]
  simp

theorem names_map_replace (k : String × String) (c res : String) :
    ∀ (gs : List ((String × String) × String)),
      ((gs.map (fun f => if f.1 == k then (k, c) else f)).filter
          (fun f => f.1.1 == res)).map (fun f => f.1.2)
        = (gs.filter (fun f => f.1.1 == res)).map (fun f => f.1.2) := by
  intro gs
  induction gs with
  | nil => simp
  | cons g gs ih =>
    by_cases hg : g.1 == k
    · have hgk : g.1 = k := by simpa using hg
      simp only [List.map_cons, if_pos hg, List.filter_cons]
      rw [show ((k, c).1.1 == res) = (g.1.1 == res) by rw [hgk]]
      by_cases hres : (g.1.1 == res)
      · rw [if_pos hres, if_pos hres]
        simp only [List.map_cons]
        rw [ih]
        rw [show (k, c).1.2 = g.1.2 by rw [hgk]]
      · rw [if_neg hres, if_neg hres]
        exact ih
    · simp only [List.map_cons, if_neg hg, List.filter_cons]
      by_cases hres : (g.1.1 == res)
      · rw [if_pos hres, if_pos hres]
        simp only [List.map_cons]
        rw [ih]
      · rw [if_neg hres, if_neg hres]
        exact ih

/-- `setFile` preserves keys: the listing of any directory shows the new
name when the write was fresh, and is unchanged when it overwrote. -/
theorem setFile_names (files : List ((String × String) × String))
    (k : String × String) (c : String) (res : String) :
    ((setFile files k c).filter (fun f => f.1.1 == res)).map (fun f => f.1.2)
      = if files.any (fun f => f.1 == k) then
          (files.filter (fun f => f.1.1 == res)).map (fun f => f.1.2)
        else
          (files.filter (fun f => f.1.1 == res)).map (fun f => f.1.2)
            ++ (if k.1 == res then [k.2] else []) := by
  rw [setFile]
  split
  · exact names_map_replace k c res files
  · rw [List.filter_append, List.map_append]
    congr 1
    simp only [List.filter_cons, List.filter_nil]
    by_cases hres : (k.1 == res)
    · rw [if_pos hres, if_pos hres]
      rfl
    · rw [if_neg hres, if_neg hres]
      rfl

end Js

/-! ## Claims -/

/-- C4: For the primary store, `getAllEntries` never raises: on any I/O
failure while listing the resource subfolder (including the subfolder not
existing) it returns the empty sequence; and `resolveContent` never raises:
on any read failure (including a non-existent snapshot name) it returns the
empty string. -/
theorem C4_fail_soft :
    (∀ (res e : String), Ext.getAllEntriesFrom res (Except.error e) = []) ∧
    (∀ (fs : Js.FsState) (res : String), res ∉ fs.dirs →
      Ext.getAllEntries fs res = []) ∧
    (∀ (e : String), Ext.resolveContentFrom (Except.error e) = "") ∧
    (∀ (fs : Js.FsState) (res name : String),
      fs.files.find? (fun f => f.1 == (res, name)) = none →
      Ext.resolveContent fs res name = "") := by
  refine ⟨fun res e => rfl, fun fs res h => ?_, fun e => rfl, fun fs res name h => ?_⟩
  · rw [Ext.getAllEntries, Js.readdirFs, if_neg h]
    rfl
  · rw [Ext.resolveContent, Js.readFileFs, h]
    rfl

/-- Witness for C4 at a concrete empty store. -/
theorem C4_fail_soft_witness :
    Ext.getAllEntries ⟨[], []⟩ "settings" = [] ∧
    Ext.resolveContent ⟨[], []⟩ "settings" "20230101T000000.json" = "" :=
  ⟨C4_fail_soft.2.1 ⟨[], []⟩ "settings" (by simp),
   C4_fail_soft.2.2.2 ⟨[], []⟩ "settings" "20230101T000000.json" rfl⟩

/-- C9: two consecutive `getAllEntries` calls with no intervening `backup`
(the directory state unchanged — and the first call indeed leaves the state
unchanged) return identical ordered sequences. -/
theorem C9_idempotent (fs : Js.FsState) (res : String) :
    (Ext.getAllEntriesOp fs res).1
      = (Ext.getAllEntriesOp (Ext.getAllEntriesOp fs res).2 res).1 ∧
    (Ext.getAllEntriesOp fs res).2 = fs :=
  ⟨rfl, rfl⟩

/-- C8: for every accepted snapshot name, `createdAt` is derived solely by
parsing the name's digit fields as local calendar values — the name is a
canonical `YYYYMMDDTHHMMSS` body (year `0..3`, month `4..5`, day `6..7`,
hour `9..10`, minute `11..12`, second `13..14`) optionally suffixed
`.json`, and the creation time is the `Date` value of exactly those six
fields (month passed zero-based). -/
theorem C8_created_from_name (name : String)
    (hacc : Ext.isSnapshotName name = true) :
    ∃ y mo d h mi s rest, y < 10000 ∧ mo < 100 ∧ d < 100 ∧ h < 100 ∧
      mi < 100 ∧ s < 100 ∧
      name.toList = Js.nameBody y mo d h mi s ++ rest ∧
      (rest = [] ∨ rest = ['.', 'j', 's', 'o', 'n']) ∧
      Ext.getCreationTime name
        = some (Js.dateMillis (y : Int) ((mo : Int) - 1) (d : Int) (h : Int)
            (mi : Int) (s : Int)) := by
  obtain ⟨y, mo, d, h, mi, s, rest, hy, hmo, hd, hh, hmi, hs, hstr, hrest⟩ :=
    Ext.isSnapshotName_destruct hacc
  exact ⟨y, mo, d, h, mi, s, rest, hy, hmo, hd, hh, hmi, hs, hstr, hrest,
    Ext.getCreationTime_nameBody hy hmo hd hh hmi hs name hstr⟩

/-- Witness for C8: the name `20230615T143022` decodes to the local calendar
date 2023-06-15, time 14:30:22 (and to nothing else). -/
theorem C8_created_from_name_witness :
    (∃ y mo d h mi s rest, y < 10000 ∧ mo < 100 ∧ d < 100 ∧ h < 100 ∧
      mi < 100 ∧ s < 100 ∧
      ("20230615T143022" : String).toList = Js.nameBody y mo d h mi s ++ rest ∧
      (rest = [] ∨ rest = ['.', 'j', 's', 'o', 'n']) ∧
      Ext.getCreationTime "20230615T143022"
        = some (Js.dateMillis (y : Int) ((mo : Int) - 1) (d : Int) (h : Int)
            (mi : Int) (s : Int))) ∧
    Ext.getCreationTime "20230615T143022"
      = some (Js.dateMillis 2023 5 15 14 30 22) :=
  ⟨C8_created_from_name "20230615T143022" (by decide), by rfl⟩

/-- A concrete entry used to instantiate the paging theorem. -/
def pagingSample : Variant.Entry :=
  ⟨"settings", ⟨"userdata-timeline", "settings/20230615T143022.json"⟩,
    "20230615T143022.json", none⟩

/-- C6: the paging function, on a full entry list and an optional
decimal-text cursor, returns the entries at positions
`offset .. offset + 9` (`offset` the parsed cursor, `0` if absent), and a
next cursor `offset + 10` in decimal, present iff more than `offset + 10`
entries exist. -/
theorem C6_paging (entries : List Variant.Entry) (cursor : Option String)
    (offset : Nat)
    (hcur : (cursor = none ∧ offset = 0) ∨
      (∃ s, cursor = some s ∧ s ≠ "" ∧ Js.parseIntStr s = some offset)) :
    Variant.provideTimelinePaging entries cursor
      = ((entries.drop offset).take 10,
          if entries.length > offset + 10 then some (toString (offset + 10))
          else none) := by
  rcases hcur with ⟨rfl, rfl⟩ | ⟨s, rfl, hne, hparse⟩
  · rw [Variant.provideTimelinePaging, Variant.filterEntries, Variant.nextCursor,
      Prod.mk.injEq]
    refine ⟨by simp, ?_⟩
    by_cases hlen : 10 < entries.length
    · rw [if_pos hlen]
    · rw [if_neg hlen]
  · rw [Variant.provideTimelinePaging, Variant.filterEntries, Variant.nextCursor]
    have hb : (s == "") = false := by
      simp only [beq_eq_false_iff_ne, ne_eq]
      exact hne
    rw [if_neg (by simp [hb]), if_neg (by simp [hb]), hparse, Prod.mk.injEq]
    refine ⟨rfl, ?_⟩
    by_cases hlen : offset + 10 < entries.length
    · simp [hlen]
    · simp [hlen]

/-- Witness for C6: with 25 entries and no cursor the page has 10 items and
next cursor `"10"`; with cursor `"20"` the page has the remaining 5 items
and no next cursor. -/
theorem C6_paging_witness :
    (Variant.provideTimelinePaging (List.replicate 25 pagingSample) none).1.length
        = 10 ∧
    (Variant.provideTimelinePaging (List.replicate 25 pagingSample) none).2
        = some "10" ∧
    (Variant.provideTimelinePaging (List.replicate 25 pagingSample)
        (some "20")).1.length = 5 ∧
    (Variant.provideTimelinePaging (List.replicate 25 pagingSample)
        (some "20")).2 = none := by
  have h1 := C6_paging (List.replicate 25 pagingSample) none 0 (Or.inl ⟨rfl, rfl⟩)
  have h2 := C6_paging (List.replicate 25 pagingSample) (some "20") 20
    (Or.inr ⟨"20", rfl, by decide, by rfl⟩)
  refine ⟨?_, ?_, ?_, ?_⟩
  · rw [h1]; rfl
  · rw [h1]; rfl
  · rw [h2]; rfl
  · rw [h2]; rfl

namespace Spec

/-- The first accepted pattern of the specification, the regex
`^\d{8}T\d{6}$`: exactly eight digits, `T`, six digits. -/
def bareStamp (s : String) : Bool :=
  match s.toList with
  | c1 :: c2 :: c3 :: c4 :: c5 :: c6 :: c7 :: c8 :: t :: c10 :: c11 :: c12
      :: c13 :: c14 :: c15 :: rest =>
    [c1, c2, c3, c4, c5, c6, c7, c8].all Char.isDigit && t == 'T' &&
      [c10, c11, c12, c13, c14, c15].all Char.isDigit && rest == []
  | _ => false

/-- The second accepted pattern of the specification, the regex
`^\d{8}T\d{6}\.json$`. -/
def jsonStamp (s : String) : Bool :=
  match s.toList with
  | c1 :: c2 :: c3 :: c4 :: c5 :: c6 :: c7 :: c8 :: t :: c10 :: c11 :: c12
      :: c13 :: c14 :: c15 :: rest =>
    [c1, c2, c3, c4, c5, c6, c7, c8].all Char.isDigit && t == 'T' &&
      [c10, c11, c12, c13, c14, c15].all Char.isDigit &&
      rest == ['.', 'j', 's', 'o', 'n']
  | _ => false

end Spec

theorem isSnapshotName_eq_spec (s : String) :
    Ext.isSnapshotName s = (Spec.bareStamp s || Spec.jsonStamp s) := by
  unfold Ext.isSnapshotName Spec.bareStamp Spec.jsonStamp
  split
  · rename_i c1 c2 c3 c4 c5 c6 c7 c8 t c10 c11 c12 c13 c14 c15 rest heq
    cases hA : [c1, c2, c3, c4, c5, c6, c7, c8].all Char.isDigit <;>
      cases hT : (t == 'T') <;>
      cases hB : [c10, c11, c12, c13, c14, c15].all Char.isDigit <;>
      cases hr1 : (rest == []) <;>
      cases hr2 : (rest == ['.', 'j', 's', 'o', 'n']) <;>
      simp [hA, hT, hB, hr1, hr2]
  · rfl

/-- C7: a directory entry name is included in the result of
`getAllEntries` iff it matches `^\d{8}T\d{6}$` or `^\d{8}T\d{6}\.json$`. -/
theorem C7_name_filter (res : String) (children : List String) (name : String)
    (hmem : name ∈ children) :
    name ∈ (Ext.getAllEntriesFrom res (Except.ok children)).map Ext.Entry.name
      ↔ (Spec.bareStamp name || Spec.jsonStamp name) = true := by
  have hnames : (Ext.getAllEntriesFrom res (Except.ok children)).map Ext.Entry.name
      = ((children.filter Ext.isSnapshotName).mergeSort
          (fun a b => Js.strLe a b)).reverse := by
    rw [Ext.getAllEntriesFrom]
    rw [List.map_map]
    rw [show (Ext.Entry.name ∘ fun name =>
      (⟨res, name, Ext.getCreationTime name⟩ : Ext.Entry)) = id from rfl]
    rw [List.map_id]
  rw [hnames, List.mem_reverse, List.mem_mergeSort, List.mem_filter,
    isSnapshotName_eq_spec]
  constructor
  · intro h
    exact h.2
  · intro h
    exact ⟨hmem, h⟩

/-- Witness for C7 on a concrete listing: both accepted forms are kept,
another name is excluded. -/
theorem C7_name_filter_witness :
    ("20230615T143022" ∈ (Ext.getAllEntriesFrom "settings"
        (Except.ok ["20230615T143022", "notes.txt", "20230101T000000.json"])).map
        Ext.Entry.name) ∧
    ("notes.txt" ∉ (Ext.getAllEntriesFrom "settings"
        (Except.ok ["20230615T143022", "notes.txt", "20230101T000000.json"])).map
        Ext.Entry.name) := by
  constructor
  · exact (C7_name_filter "settings" _ "20230615T143022"
      (by simp)).mpr (by decide)
  · intro h
    have := (C7_name_filter "settings" _ "notes.txt" (by simp)).mp h
    exact absurd this (by decide)

/-- Counterexample to C3 as stated: the soft-fail read-miss case is NOT kept
distinct from the parse-failure domain.  A read miss makes the base
`resolveContent` return `""`, and `JSON.parse("")` then throws, so the
sync-variant call fails hard on a missing snapshot. -/
theorem C3_counterexample :
    Variant.resolveContentFrom (Except.error "ENOENT") = "" ∧
    Variant.syncResolveContent (Except.error "ENOENT")
      = Except.error "unexpected end of JSON input" :=
  ⟨rfl, rfl⟩

/-- C3 (amended): the sync-variant `resolveContent` on the stored value
`{"content":"{\"settings\":\"FOO\"}"}` returns `"FOO"`; a parse failure at
either unwrapping stage propagates as a hard failure; and the soft-fail
read miss yields `""` at the base layer, whose parse then fails, so a read
miss also surfaces as a hard parse failure instead of remaining a distinct
soft result. -/
theorem C3_sync_resolve :
    Variant.syncResolveContent
        (Except.ok "\x7b\"content\":\"\x7b\\\"settings\\\":\\\"FOO\\\"\x7d\"\x7d")
      = Except.ok "FOO" ∧
    (∀ (raw e : String), Js.jsonParse raw = Except.error e →
      Variant.syncResolveContent (Except.ok raw) = Except.error e) ∧
    (∀ (raw content e : String) (v : Js.Json),
      Js.jsonParse raw = Except.ok v →
      Js.getField v "content" = some (Js.Json.str content) →
      Js.jsonParse content = Except.error e →
      Variant.syncResolveContent (Except.ok raw) = Except.error e) ∧
    (∀ (e : String), Variant.syncResolveContent (Except.error e)
      = Except.error "unexpected end of JSON input") := by
  refine ⟨rfl, ?_, ?_, fun e => rfl⟩
  · intro raw e h
    rw [Variant.syncResolveContent]
    rw [show Variant.resolveContentFrom (Except.ok raw) = raw from rfl, h]
  · intro raw content e v h1 h2 h3
    rw [Variant.syncResolveContent]
    rw [show Variant.resolveContentFrom (Except.ok raw) = raw from rfl, h1]
    simp only [h2, h3]

/-- Witness for C3 (amended): a malformed outer document and a malformed
inner document both fail hard. -/
theorem C3_sync_resolve_witness :
    Variant.syncResolveContent (Except.ok "not json")
        = Except.error "unexpected character in JSON" ∧
    Variant.syncResolveContent (Except.ok "\x7b\"content\":\"\x7b\"\x7d")
        = Except.error "unterminated object" := by
  refine ⟨C3_sync_resolve.2.1 "not json" _ rfl, ?_⟩
  exact C3_sync_resolve.2.2.1 "\x7b\"content\":\"\x7b\"\x7d" "\x7b"
    "unterminated object" (Js.Json.obj [("content", Js.Json.str "\x7b")]) rfl rfl rfl

/-- C5: a successful `backup(resource)` creates the resource subfolder if
absent (and leaves the folder set unchanged otherwise), writes the file
named by the current local time as `YYYYMMDDTHHMMSS.json` with a
byte-for-byte copy of the live configuration content, leaves every other
snapshot unchanged (exactly one new file when no same-second collision
exists), and fires the change event carrying the resource exactly once. -/
theorem C5_backup (fs : Js.FsState) (res : String) (now : Js.Clock)
    (live : String) (hv : now.Valid) :
    (Ext.backup fs res now (Except.ok live)).2 = Except.ok [res] ∧
    res ∈ (Ext.backup fs res now (Except.ok live)).1.dirs ∧
    (res ∈ fs.dirs → (Ext.backup fs res now (Except.ok live)).1.dirs = fs.dirs) ∧
    (Ext.backupFileName now).toList
      = Js.nameBody now.year (now.monthIdx + 1) now.day now.hour now.minute
          now.second ++ ['.', 'j', 's', 'o', 'n'] ∧
    Js.readFileFs (Ext.backup fs res now (Except.ok live)).1 res
        (Ext.backupFileName now) = Except.ok live ∧
    (fs.files.any (fun f => f.1 == (res, Ext.backupFileName now)) = false →
      (Ext.backup fs res now (Except.ok live)).1.files.length
        = fs.files.length + 1) ∧
    (∀ res2 name2, (res2, name2) ≠ (res, Ext.backupFileName now) →
      Js.readFileFs (Ext.backup fs res now (Except.ok live)).1 res2 name2
        = Js.readFileFs fs res2 name2) := by
  have hstate : (Ext.backup fs res now (Except.ok live)).1
      = ⟨if res ∈ fs.dirs then fs.dirs else fs.dirs ++ [res],
          Js.setFile fs.files (res, Ext.backupFileName now) live⟩ := rfl
  refine ⟨rfl, ?_, ?_, Ext.backupFileName_toList now hv, ?_, ?_, ?_⟩
  · rw [hstate]
    by_cases h : res ∈ fs.dirs
    · simp [h]
    · simp [h]
  · intro h
    rw [hstate]
    simp [h]
  · rw [hstate, Js.readFileFs]
    rw [show (⟨if res ∈ fs.dirs then fs.dirs else fs.dirs ++ [res],
        Js.setFile fs.files (res, Ext.backupFileName now) live⟩ : Js.FsState).files
      = Js.setFile fs.files (res, Ext.backupFileName now) live from rfl]
    rw [Js.setFile_find_self]
  · intro h
    rw [hstate]
    exact Js.setFile_length_fresh fs.files _ live h
  · intro res2 name2 hne
    rw [hstate, Js.readFileFs, Js.readFileFs]
    rw [show (⟨if res ∈ fs.dirs then fs.dirs else fs.dirs ++ [res],
        Js.setFile fs.files (res, Ext.backupFileName now) live⟩ : Js.FsState).files
      = Js.setFile fs.files (res, Ext.backupFileName now) live from rfl]
    rw [Js.setFile_find_other fs.files _ _ live hne]

/-- Witness for C5: backing up into an empty store creates the subfolder
and exactly one snapshot. -/
theorem C5_backup_witness :
    (Ext.backup ⟨[], []⟩ "settings" ⟨2023, 5, 15, 14, 30, 22, 123⟩
        (Except.ok "\x7b\x7d")).2 = Except.ok ["settings"] ∧
    (Ext.backup ⟨[], []⟩ "settings" ⟨2023, 5, 15, 14, 30, 22, 123⟩
        (Except.ok "\x7b\x7d")).1.files.length = 1 := by
  have h := C5_backup ⟨[], []⟩ "settings" ⟨2023, 5, 15, 14, 30, 22, 123⟩
    "\x7b\x7d" (by decide)
  exact ⟨h.1, h.2.2.2.2.2.1 rfl⟩

/-- C10: the duplicated implementations are behaviourally equivalent.
Given the same listing, read outcome, clock and filesystem state, the
variant resolver (`UserDataBackupResolver` with
`UserDataChangesBackupService`) and `src/extension.ts`'s
`UserDataBackupService` accept the same names, parse the same creation
times, produce the same entries (up to the extra `uri` field, which only
the variant carries), resolve the same content with the same soft-fail
policy, and perform the same backup effects (same snapshot name, same
bytes, same single change event). -/
theorem C10_equivalence :
    (∀ (scheme res : String) (listing : Except String (List String)),
      (Variant.getAllEntriesFrom scheme res listing).map
          (fun e => (e.resource, e.name, e.created))
        = (Ext.getAllEntriesFrom res listing).map
            (fun e => (e.resource, e.name, e.created))) ∧
    (∀ (r : Except String String),
      Variant.resolveContentFrom r = Ext.resolveContentFrom r) ∧
    (∀ (name : String), Variant.isSnapshotName name = Ext.isSnapshotName name) ∧
    (∀ (name : String), Variant.getCreationTime name = Ext.getCreationTime name) ∧
    (∀ (t : Js.Clock), Variant.backupFileName t = Ext.backupFileName t) ∧
    (∀ (fs : Js.FsState) (res : String) (now : Js.Clock)
        (live : Except String String),
      Variant.backup fs res now live = Ext.backup fs res now live) := by
  refine ⟨?_, fun r => rfl, fun name => rfl, fun name => rfl, fun t => rfl,
    fun fs res now live => rfl⟩
  intro scheme res listing
  cases listing with
  | error e => rfl
  | ok children =>
    simp only [Variant.getAllEntriesFrom, Ext.getAllEntriesFrom]
    rw [List.map_map, List.map_map]
    rfl

namespace Ext

theorem getAllEntriesFrom_names (res : String) (children : List String) :
    (getAllEntriesFrom res (Except.ok children)).map Entry.name
      = ((children.filter isSnapshotName).mergeSort
          (fun a b => Js.strLe a b)).reverse := by
  rw [getAllEntriesFrom, List.map_map]
  rw [show (Entry.name ∘ fun name =>
    (⟨res, name, getCreationTime name⟩ : Entry)) = id from rfl]
  rw [List.map_id]

end Ext

/-- An accepted snapshot name all of whose fields are calendar-valid. -/
def ValidSnapshotName (s : String) : Prop :=
  ∃ y mo d h mi sec rest, Js.ValidFields y mo d h mi sec ∧
    s.toList = Js.nameBody y mo d h mi sec ++ rest ∧
    (rest = [] ∨ rest = ['.', 'j', 's', 'o', 'n'])

/-- Counterexample to C2 as stated: over arbitrary directory states the
lexicographic order of accepted names does not coincide with `createdAt`
order.  `20230199T000000` (day field 99, which `Date` normalises to
April 9) sorts before `20230201T000000` but decodes to a strictly later
creation time; likewise `00500101T000000` sorts before `01000101T000000`
but decodes later, because the `Date` constructor reads year 50 as 1950
while year 100 stays year 100. -/
theorem C2_counterexample :
    ((Ext.getAllEntriesFrom "settings"
        (Except.ok ["20230199T000000", "20230201T000000"])).map Ext.Entry.name
      = ["20230201T000000", "20230199T000000"]) ∧
    ("20230199T000000" : String) < "20230201T000000" ∧
    Ext.getCreationTime "20230199T000000" = some 1680998400000 ∧
    Ext.getCreationTime "20230201T000000" = some 1675209600000 ∧
    (1675209600000 : Int) < 1680998400000 ∧
    Ext.isSnapshotName "00500101T000000" = true ∧
    Ext.isSnapshotName "01000101T000000" = true ∧
    ("00500101T000000" : String) < "01000101T000000" ∧
    Ext.getCreationTime "00500101T000000" = some (-631152000000) ∧
    Ext.getCreationTime "01000101T000000" = some (-59011459200000) ∧
    (-59011459200000 : Int) < -631152000000 := by
  refine ⟨?_, ?_, rfl, rfl, by decide, rfl, rfl, ?_, rfl, rfl, by decide⟩
  · have hsorted : List.Pairwise (fun a b : String => Js.strLe a b = true)
        ["20230199T000000", "20230201T000000"] := by decide
    have hms : (["20230199T000000", "20230201T000000"] : List String).mergeSort
        (fun a b => Js.strLe a b) = ["20230199T000000", "20230201T000000"] :=
      List.mergeSort_of_sorted hsorted
    rw [Ext.getAllEntriesFrom_names]
    rw [show (["20230199T000000", "20230201T000000"] : List String).filter
        Ext.isSnapshotName = ["20230199T000000", "20230201T000000"] from rfl]
    rw [hms]
    rfl
  · rw [String.lt_iff_toList_lt]
    exact (Js.charListLt_iff _ _).mp (by decide)
  · rw [String.lt_iff_toList_lt]
    exact (Js.charListLt_iff _ _).mp (by decide)

namespace Js

theorem nameBody_length (y mo d h mi s : Nat) :
    (nameBody y mo d h mi s).length = 15 := rfl

end Js

/-- C2 (amended): the sequence returned by `getAllEntries` is the accepted
names sorted in decreasing lexicographic order; and for any two entries
whose names encode calendar-valid fields (month 1–12, day within the
month, hour < 24, minute < 60, second < 60, year field at least 100 — the
`Date` constructor reads years 0–99 as 1900+year), lexicographic order of
the names coincides with `createdAt` order: the lexicographically larger
name has a `createdAt` greater than or equal to the other's. -/
theorem C2_order (res : String) (children : List String) :
    ((Ext.getAllEntriesFrom res (Except.ok children)).map Ext.Entry.name).Pairwise
      (fun a b => b ≤ a) ∧
    ((Ext.getAllEntriesFrom res (Except.ok children)).map Ext.Entry.name).Perm
      (children.filter Ext.isSnapshotName) ∧
    (∀ e1 e2, e1 ∈ Ext.getAllEntriesFrom res (Except.ok children) →
      e2 ∈ Ext.getAllEntriesFrom res (Except.ok children) →
      ValidSnapshotName e1.name → ValidSnapshotName e2.name →
      e1.name ≤ e2.name →
      ∀ v1 v2, e1.created = some v1 → e2.created = some v2 → v1 ≤ v2) := by
  refine ⟨?_, ?_, ?_⟩
  · rw [Ext.getAllEntriesFrom_names, List.pairwise_reverse]
    exact Js.mergeSort_strings_sorted _
  · rw [Ext.getAllEntriesFrom_names]
    exact (List.reverse_perm _).trans (List.mergeSort_perm _ _)
  · have hshape : Ext.getAllEntriesFrom res (Except.ok children)
        = (((children.filter Ext.isSnapshotName).mergeSort
            (fun a b => Js.strLe a b)).reverse).map
            (fun name => ⟨res, name, Ext.getCreationTime name⟩) := rfl
    intro e1 e2 h1 h2 hv1 hv2 hle v1 v2 hc1 hc2
    rw [hshape] at h1 h2
    obtain ⟨n1, _, rfl⟩ := List.mem_map.mp h1
    obtain ⟨n2, _, rfl⟩ := List.mem_map.mp h2
    simp only at hv1 hv2 hle hc1 hc2
    obtain ⟨y1, mo1, d1, hh1, mi1, s1, rest1, hvf1, hstr1, hrest1⟩ := hv1
    obtain ⟨y2, mo2, d2, hh2, mi2, s2, rest2, hvf2, hstr2, hrest2⟩ := hv2
    obtain ⟨ha1, hb1, hc1v, hd1v, he1, hf1, hg1, hhh1, hi1⟩ := hvf1
    obtain ⟨ha2, hb2, hc2v, hd2v, he2, hf2, hg2, hhh2, hi2⟩ := hvf2
    have hlen1 : d1 ≤ 31 :=
      le_trans hf1 (Js.lenN_le _ mo1 hc1v hd1v)
    have hlen2 : d2 ≤ 31 :=
      le_trans hf2 (Js.lenN_le _ mo2 hc2v hd2v)
    have hm1 : Ext.getCreationTime n1
        = some (Js.dateMillis (y1 : Int) ((mo1 : Int) - 1) (d1 : Int)
            (hh1 : Int) (mi1 : Int) (s1 : Int)) :=
      Ext.getCreationTime_nameBody (by omega) (by omega) (by omega) (by omega)
        (by omega) (by omega) n1 hstr1
    have hm2 : Ext.getCreationTime n2
        = some (Js.dateMillis (y2 : Int) ((mo2 : Int) - 1) (d2 : Int)
            (hh2 : Int) (mi2 : Int) (s2 : Int)) :=
      Ext.getCreationTime_nameBody (by omega) (by omega) (by omega) (by omega)
        (by omega) (by omega) n2 hstr2
    rw [hm1] at hc1
    rw [hm2] at hc2
    have hv1eq := Option.some.inj hc1
    have hv2eq := Option.some.inj hc2
    subst hv1eq
    subst hv2eq
    have hfieldsLe : Js.fieldsLe y1 mo1 d1 hh1 mi1 s1 y2 mo2 d2 hh2 mi2 s2 := by
      rw [String.le_iff_toList_le] at hle
      rcases lt_or_eq_of_le hle with hlt | heq
      · have hlex : List.Lex (· < ·) n1.toList n2.toList := hlt
        rw [hstr1, hstr2] at hlex
        rw [Js.lex_append_block _ _
          (by rw [Js.nameBody_length, Js.nameBody_length])] at hlex
        rcases hlex with hlex | ⟨heqb, _⟩
        · exact Or.inl ((Js.nameBody_lt_iff (by omega) (by omega) (by omega)
            (by omega) (by omega) (by omega) (by omega) (by omega) (by omega)
            (by omega) (by omega) (by omega)).mp hlex)
        · right
          have := (Js.nameBody_eq_iff (by omega) (by omega) (by omega) (by omega)
            (by omega) (by omega) (by omega) (by omega) (by omega) (by omega)
            (by omega) (by omega)).mp heqb
          tauto
      · right
        rw [hstr1, hstr2] at heq
        have heqb := List.append_inj_left heq
          (by rw [Js.nameBody_length, Js.nameBody_length])
        have := (Js.nameBody_eq_iff (by omega) (by omega) (by omega) (by omega)
          (by omega) (by omega) (by omega) (by omega) (by omega) (by omega)
          (by omega) (by omega)).mp heqb
        tauto
    exact Js.dateMillis_mono
      ⟨ha1, hb1, hc1v, hd1v, he1, hf1, hg1, hhh1, hi1⟩
      ⟨ha2, hb2, hc2v, hd2v, he2, hf2, hg2, hhh2, hi2⟩ hfieldsLe

/-- Witness for C2 over a concrete two-snapshot directory: the
lexicographically larger valid name carries the larger creation time. -/
theorem C2_order_witness : (1672531200000 : Int) ≤ 1686839422000 := by
  have hms : (["20230101T000000", "20230615T143022.json"] : List String).mergeSort
      (fun a b => Js.strLe a b) = ["20230101T000000", "20230615T143022.json"] :=
    List.mergeSort_of_sorted (by decide)
  have hout : Ext.getAllEntriesFrom "settings"
      (Except.ok ["20230101T000000", "20230615T143022.json"])
      = [⟨"settings", "20230615T143022.json", some 1686839422000⟩,
         ⟨"settings", "20230101T000000", some 1672531200000⟩] := by
    rw [show Ext.getAllEntriesFrom "settings"
        (Except.ok ["20230101T000000", "20230615T143022.json"])
      = ((((["20230101T000000", "20230615T143022.json"] : List String).filter
          Ext.isSnapshotName).mergeSort (fun a b => Js.strLe a b)).reverse).map
          (fun name => ⟨"settings", name, Ext.getCreationTime name⟩) from rfl]
    rw [show (["20230101T000000", "20230615T143022.json"] : List String).filter
        Ext.isSnapshotName = ["20230101T000000", "20230615T143022.json"] from rfl]
    rw [hms]
    rfl
  have h := (C2_order "settings" ["20230101T000000", "20230615T143022.json"]).2.2
    ⟨"settings", "20230101T000000", some 1672531200000⟩
    ⟨"settings", "20230615T143022.json", some 1686839422000⟩
    (by rw [hout]; simp)
    (by rw [hout]; simp)
    ⟨2023, 1, 1, 0, 0, 0, [], by decide, by rfl, Or.inl rfl⟩
    ⟨2023, 6, 15, 14, 30, 22, ['.', 'j', 's', 'o', 'n'], by decide, by rfl,
      Or.inr rfl⟩
    ((Js.strLe_iff _ _).mp (by decide))
    1672531200000 1686839422000 rfl rfl
  exact h

namespace Js

theorem lex_append_right {l1 l2 : List Char} (u : List Char)
    (h : List.Lex (· < ·) l1 l2) : List.Lex (· < ·) l1 (l2 ++ u) := by
  induction h with
  | nil => exact List.Lex.nil
  | rel hr => exact List.Lex.rel hr
  | cons _ ih => exact List.Lex.cons ih

theorem lex_append_cons (l : List Char) (a : Char) (t : List Char) :
    List.Lex (· < ·) l (l ++ a :: t) := by
  induction l with
  | nil => exact List.Lex.nil
  | cons x xs ih => exact List.Lex.cons ih

/-- If a key is already present among the files, its name shows up in the
directory listing of its resource. -/
theorem any_key_mem_names (files : List ((String × String) × String))
    (k : String × String) (h : files.any (fun f => f.1 == k) = true) :
    k.2 ∈ (files.filter (fun f => f.1.1 == k.1)).map (fun f => f.1.2) := by
  rw [List.any_eq_true] at h
  obtain ⟨f, hf, hfe⟩ := h
  have h2 : (f.1.1 == k.1 && f.1.2 == k.2) = true := hfe
  rw [Bool.and_eq_true, beq_iff_eq, beq_iff_eq] at h2
  have he : f.1 = k := Prod.ext h2.1 h2.2
  rw [List.mem_map]
  refine ⟨f, List.mem_filter.mpr ⟨hf, ?_⟩, by rw [he]⟩
  rw [he]
  exact beq_self_eq_true _

end Js

namespace Ext

/-- The name `backup` writes for a valid clock reading passes the
`getAllEntries` name filter. -/
theorem isSnapshotName_backupFileName (t : Js.Clock) (hv : t.Valid) :
    isSnapshotName (backupFileName t) = true := by
  have hl := backupFileName_toList t hv
  rw [Js.nameBody_explicit] at hl
  rw [isSnapshotName_cons _ _ _ _ _ _ _ _ _ _ _ _ _ _ _ _ _ hl]
  obtain ⟨hy1, hy2, hmo, hd1, hd2, hh, hmi, hs, hms⟩ := hv
  simp only [List.all_cons, List.all_nil,
    Js.digitChar_isDigit (show t.year / 100 / 10 < 10 by omega),
    Js.digitChar_isDigit (show t.year / 100 % 10 < 10 by omega),
    Js.digitChar_isDigit (show t.year % 100 / 10 < 10 by omega),
    Js.digitChar_isDigit (show t.year % 100 % 10 < 10 by omega),
    Js.digitChar_isDigit (show (t.monthIdx + 1) / 10 < 10 by omega),
    Js.digitChar_isDigit (show (t.monthIdx + 1) % 10 < 10 by omega),
    Js.digitChar_isDigit (show t.day / 10 < 10 by omega),
    Js.digitChar_isDigit (show t.day % 10 < 10 by omega),
    Js.digitChar_isDigit (show t.hour / 10 < 10 by omega),
    Js.digitChar_isDigit (show t.hour % 10 < 10 by omega),
    Js.digitChar_isDigit (show t.minute / 10 < 10 by omega),
    Js.digitChar_isDigit (show t.minute % 10 < 10 by omega),
    Js.digitChar_isDigit (show t.second / 10 < 10 by omega),
    Js.digitChar_isDigit (show t.second % 10 < 10 by omega)]
  decide

end Ext

/-- C1: after a successful `backup` of a resource, `getAllEntries` on that
resource is non-empty and its first entry's name is exactly the snapshot the
backup wrote, provided the wall clock has not gone backwards: every accepted
snapshot name already in the folder was formed from a valid clock reading
whose fields are lexicographically at most the current reading's. -/
theorem C1_newest_first (fs : Js.FsState) (res : String) (now : Js.Clock)
    (live : String) (hv : now.Valid)
    (hist : ∀ n, n ∈ (fs.files.filter (fun f => f.1.1 == res)).map (fun f => f.1.2) →
      Ext.isSnapshotName n = true →
      ∃ t : Js.Clock, t.Valid ∧
        Js.fieldsLe t.year (t.monthIdx + 1) t.day t.hour t.minute t.second
          now.year (now.monthIdx + 1) now.day now.hour now.minute now.second ∧
        (n.toList = Js.nameBody t.year (t.monthIdx + 1) t.day t.hour t.minute
            t.second ∨ n = Ext.backupFileName t)) :
    Ext.getAllEntries (Ext.backup fs res now (Except.ok live)).1 res ≠ [] ∧
    ((Ext.getAllEntries (Ext.backup fs res now (Except.ok live)).1 res).map
        Ext.Entry.name).head? = some (Ext.backupFileName now) := by
  have hbfn := Ext.backupFileName_toList now hv
  have hle_of_hist : ∀ x : String,
      (∃ t : Js.Clock, t.Valid ∧
        Js.fieldsLe t.year (t.monthIdx + 1) t.day t.hour t.minute t.second
          now.year (now.monthIdx + 1) now.day now.hour now.minute now.second ∧
        (x.toList = Js.nameBody t.year (t.monthIdx + 1) t.day t.hour t.minute
            t.second ∨ x = Ext.backupFileName t)) →
      x ≤ Ext.backupFileName now := by
    rintro x ⟨t, htv, hfle, hform⟩
    have hxl := Ext.backupFileName_toList t htv
    have htv' := htv
    have hv' := hv
    obtain ⟨ty1, ty2, tmo, td1, td2, th, tmi, ts2, tms⟩ := htv'
    obtain ⟨ny1, ny2, nmo2, nd1, nd2, nh, nmi2, ns2, nms⟩ := hv'
    rw [String.le_iff_toList_le]
    rcases hfle with hlt | ⟨e1, e2, e3, e4, e5, e6⟩
    · have hlex : List.Lex (· < ·)
          (Js.nameBody t.year (t.monthIdx + 1) t.day t.hour t.minute t.second)
          (Js.nameBody now.year (now.monthIdx + 1) now.day now.hour now.minute
            now.second) :=
        (Js.nameBody_lt_iff (by omega) (by omega) (by omega) (by omega) (by omega)
          (by omega) (by omega) (by omega) (by omega) (by omega) (by omega)
          (by omega)).mpr hlt
      apply le_of_lt
      show List.Lex (· < ·) x.toList (Ext.backupFileName now).toList
      rw [hbfn]
      rcases hform with hxa | hxa
      · rw [hxa]
        exact Js.lex_append_right _ hlex
      · rw [hxa, hxl]
        rw [Js.lex_append_block _ _
          (by rw [Js.nameBody_length, Js.nameBody_length])]
        exact Or.inl hlex
    · have hbe : Js.nameBody t.year (t.monthIdx + 1) t.day t.hour t.minute t.second
          = Js.nameBody now.year (now.monthIdx + 1) now.day now.hour now.minute
              now.second := by
        rw [e1, e2, e3, e4, e5, e6]
      rcases hform with hxa | hxa
      · apply le_of_lt
        show List.Lex (· < ·) x.toList (Ext.backupFileName now).toList
        rw [hxa, hbe, hbfn]
        exact Js.lex_append_cons _ _ _
      · apply le_of_eq
        rw [hxa, hxl, hbe, hbfn]
  have hdirs : res ∈ (Ext.backup fs res now (Except.ok live)).1.dirs := by
    show res ∈ if res ∈ fs.dirs then fs.dirs else fs.dirs ++ [res]
    split
    · assumption
    · exact List.mem_append_right _ (by simp)
  have hfiles : (Ext.backup fs res now (Except.ok live)).1.files
      = Js.setFile fs.files (res, Ext.backupFileName now) live := rfl
  have hread : Js.readdirFs (Ext.backup fs res now (Except.ok live)).1 res
      = Except.ok (((Js.setFile fs.files (res, Ext.backupFileName now) live).filter
          (fun f => f.1.1 == res)).map (fun f => f.1.2)) := by
    rw [Js.readdirFs, if_pos hdirs, hfiles]
  have hnames := Js.setFile_names fs.files (res, Ext.backupFileName now) live res
  suffices hkey : Ext.backupFileName now
        ∈ ((Js.setFile fs.files (res, Ext.backupFileName now) live).filter
            (fun f => f.1.1 == res)).map (fun f => f.1.2) ∧
      (∀ y ∈ ((Js.setFile fs.files (res, Ext.backupFileName now) live).filter
            (fun f => f.1.1 == res)).map (fun f => f.1.2),
        Ext.isSnapshotName y = true → y ≤ Ext.backupFileName now) by
    obtain ⟨hbmem, hall⟩ := hkey
    have hxmem : Ext.backupFileName now
        ∈ (((Js.setFile fs.files (res, Ext.backupFileName now) live).filter
            (fun f => f.1.1 == res)).map (fun f => f.1.2)).filter
            Ext.isSnapshotName :=
      List.mem_filter.mpr ⟨hbmem, Ext.isSnapshotName_backupFileName now hv⟩
    have hmax : ∀ y ∈ (((Js.setFile fs.files (res, Ext.backupFileName now)
            live).filter (fun f => f.1.1 == res)).map (fun f => f.1.2)).filter
            Ext.isSnapshotName,
        y ≤ Ext.backupFileName now := by
      intro y hy
      have hy2 := List.mem_filter.mp hy
      exact hall y hy2.1 hy2.2
    have hhead : ((Ext.getAllEntries (Ext.backup fs res now (Except.ok live)).1
          res).map Ext.Entry.name).head? = some (Ext.backupFileName now) := by
      rw [Ext.getAllEntries, hread, Ext.getAllEntriesFrom_names]
      exact Js.mergeSort_reverse_head hxmem hmax
    refine ⟨?_, hhead⟩
    intro hnil
    rw [hnil] at hhead
    simp at hhead
  cases hany : fs.files.any (fun f => f.1 == (res, Ext.backupFileName now)) with
  | true =>
    rw [if_pos hany] at hnames
    refine ⟨?_, ?_⟩
    · rw [hnames]
      exact Js.any_key_mem_names fs.files (res, Ext.backupFileName now) hany
    · intro y hy hacc
      rw [hnames] at hy
      exact hle_of_hist y (hist y hy hacc)
  | false =>
    rw [if_neg (by simp [hany])] at hnames
    have hk : ((res, Ext.backupFileName now).1 == res) = true := beq_self_eq_true res
    rw [if_pos hk] at hnames
    refine ⟨?_, ?_⟩
    · rw [hnames]
      exact List.mem_append_right _ (by simp)
    · intro y hy hacc
      rw [hnames] at hy
      rcases List.mem_append.mp hy with hy2 | hy2
      · exact hle_of_hist y (hist y hy2 hacc)
      · have hye : y = Ext.backupFileName now := by simpa using hy2
        rw [hye]

/-- Witness for C1 over an empty store: the freshly written snapshot heads
the listing. -/
theorem C1_newest_first_witness :
    Ext.getAllEntries (Ext.backup ⟨[], []⟩ "settings" ⟨2023, 5, 15, 14, 30, 22, 123⟩
        (Except.ok "x")).1 "settings" ≠ [] ∧
    ((Ext.getAllEntries (Ext.backup ⟨[], []⟩ "settings"
        ⟨2023, 5, 15, 14, 30, 22, 123⟩ (Except.ok "x")).1 "settings").map
        Ext.Entry.name).head? = some "20230615T143022.json" := by
  have h := C1_newest_first ⟨[], []⟩ "settings" ⟨2023, 5, 15, 14, 30, 22, 123⟩ "x"
    (by decide) (by intro n hn h2; simp at hn)
  refine ⟨h.1, ?_⟩
  rw [h.2]
  rfl
